import Mathlib

/-!
Verification of the Walmart Order Exporter content script
(`src/content/content.js`) against its natural-language specification.

The JavaScript is shallowly embedded in Lean:

* pure string/record manipulation (CSV serialization, item records,
  validity filters) is translated directly;
* DOM nodes and embedded-JSON documents are abstracted to records that
  carry exactly the projections the source code reads from them (text
  fragments, the results of the fixed regular-expression matches, image
  alt texts);
* network calls and the host date parser are abstracted as environment
  functions; `chrome.runtime.sendMessage` (which can throw
  synchronously) is modelled as an environment function that may fail
  at a given call index, so the `try`/`catch` structure of
  `exportOrders` can be studied;
* JS numbers that hold prices are modelled as rationals, JS string
  truthiness (`x || y`) is modelled explicitly.
-/

namespace WalmartExporter

/-! ## Basic data model (§3 of the spec)

`Item` and `Order` mirror the object literals constructed throughout
`content.js`.  `orderNumber` is `Option String` because the
error-record built in `fetchOrderDetails`'s `catch` block carries no
`orderNumber` property at all (`none` models the absent field, while
`some ""` models a present-but-empty one; both are falsy in JS). -/

structure Item where
  name : String
  quantity : Nat
  price : String
  priceValue : ℚ
  deriving DecidableEq, Repr

structure StoreLocation where
  name : String
  address : String
  deriving DecidableEq, Repr

inductive OrderType where
  | online
  | store
  deriving DecidableEq, Repr

structure Order where
  orderId : String
  orderNumber : Option String
  orderType : OrderType
  orderDate : String
  status : String
  items : List Item
  subtotal : String
  tax : String
  total : String
  associateDiscount : String
  driverTip : String
  deliveryFee : String
  expressFee : String
  storeLocation : StoreLocation
  error : Option String := none
  deriving DecidableEq, Repr

/-- JS truthiness of a string: only the empty string is falsy. -/
def strTruthy (s : String) : Bool := s ≠ ""

/-- JS truthiness of an optional string (`undefined` and `''` are falsy). -/
def optStrTruthy : Option String → Bool
  | some s => strTruthy s
  | none => false

/-! ## `escapeCSV` (content.js lines 2001-2012)

The core is defined on `List Char` so the round-trip can be proved by
induction; `escapeCSVStr` is the `String` wrapper used by the
serializer.  `String(value)` on a string input is the identity, and the
`null`/`undefined` guard cannot fire on our `String` model, so the
embedding starts at the `includes` test. -/

/-- The escape condition of `escapeCSV`:
`str.includes(',') || str.includes('"') || str.includes('\n')`. -/
def needsEscape (s : List Char) : Bool :=
  s.contains ',' || s.contains '"' || s.contains '\n'

/-- `str.replace(/"/g, '""')`: every double quote is doubled. -/
def doubleQuotes : List Char → List Char
  | [] => []
  | c :: cs => if c = '"' then '"' :: '"' :: doubleQuotes cs else c :: doubleQuotes cs

/-- The quoted form `"..."` produced by `escapeCSV` for fields that
need escaping. -/
def quoteWrap (s : List Char) : List Char :=
  '"' :: (doubleQuotes s ++ ['"'])

/-- `escapeCSV` on character lists. -/
def escapeCSVChars (s : List Char) : List Char :=
  if needsEscape s then quoteWrap s else s

/-- Collapse doubled double quotes (the inverse transformation a CSV
reader applies to the interior of a quoted field). -/
def collapseQuotes : List Char → List Char
  | [] => []
  | [c] => [c]
  | a :: b :: cs =>
    if a = '"' ∧ b = '"' then '"' :: collapseQuotes cs
    else a :: collapseQuotes (b :: cs)

/-- Parse a quoted CSV field back: strip the outer quotes and collapse
the doubled interior quotes. -/
def unescapeField (s : List Char) : List Char :=
  collapseQuotes ((s.drop 1).dropLast)

/-- `escapeCSV` on `String`, as used by `generateCSV`. -/
def escapeCSVStr (s : String) : String :=
  String.mk (escapeCSVChars s.data)

/-! ## String helpers shared by several embedded functions -/

/-- Contiguous-substring test on character lists (JS `String.includes`
and the unanchored regex alternatives). -/
def listIsInfix (p : List Char) : List Char → Bool
  | [] => p.isEmpty
  | c :: cs => p.isPrefixOf (c :: cs) || listIsInfix p cs

/-- JS `hay.includes(needle)`. -/
def strIncludes (needle hay : String) : Bool :=
  listIsInfix needle.data hay.data

/-- Lower-case one character (ASCII case folding, which is what the
deny-list literals need). -/
def lowerChar (c : Char) : Char :=
  if 65 ≤ c.toNat ∧ c.toNat ≤ 90 then Char.ofNat (c.toNat + 32) else c

/-- Whitespace trim (JS `String.prototype.trim`) on character lists. -/
def trimChars (s : List Char) : List Char :=
  ((s.dropWhile Char.isWhitespace).reverse.dropWhile Char.isWhitespace).reverse

/-- Whitespace trim on strings. -/
def jsTrim (s : String) : String := String.mk (trimChars s.data)

/-- Lower-cased characters of a string (all the deny-list regexes carry
the `i` flag). -/
def lowerData (s : String) : List Char := s.data.map lowerChar

/-- Digits-to-number, modelling `parseInt` on a `\d+` capture. -/
def digitsToNat (ds : List Char) : Nat :=
  ds.foldl (fun acc c => acc * 10 + (c.toNat - '0'.toNat)) 0

/-! ## `isValidProductName` (content.js lines 1554-1609)

Every deny-list pattern is either a case-insensitive anchored literal
(`/^Subtotal/i`, ...), one of the unanchored alternatives of
`/^VISA|MASTERCARD|AMEX|DISCOVER/i` (only `VISA` is anchored by the
`^`), or one of the two structured patterns `/^Express\s*\$/i` and
`/^\d+\s+items?$/i`, which are implemented character by character. -/

/-- The anchored literal deny-list prefixes, lower-cased. -/
def denyListStarts : List String :=
  ["subtotal", "total", "tax", "savings", "associate discount", "driver tip",
   "payment method", "delivery", "address", "order#", "complete,", "current,",
   "not complete", "placed", "preparing", "on the way", "delivered",
   "return eligible", "how can we help", "need more help", "start a return",
   "track shipment", "view delivery", "charge history", "walmart+",
   "free delivery", "temporary hold", "your payment", "ending in",
   "tc#", "store purchase", "purchased at", "receipt", "transaction",
   "store:", "walmart supercenter", "walmart neighborhood", "cash back",
   "change due", "tender", "visa"]

/-- The unanchored alternatives of `/^VISA|MASTERCARD|AMEX|DISCOVER/i`. -/
def denyListAnywhere : List String := ["mastercard", "amex", "discover"]

/-- The pattern `/^Express\s*\$/i`. -/
def expressFeePattern (low : List Char) : Bool :=
  "express".data.isPrefixOf low &&
    (match (low.drop 7).dropWhile Char.isWhitespace with
     | '$' :: _ => true
     | _ => false)

/-- The pattern `/^\d+\s+items?$/i`. -/
def itemCountPattern (low : List Char) : Bool :=
  let r1 := low.dropWhile Char.isDigit
  let r2 := r1.dropWhile Char.isWhitespace
  decide (low.takeWhile Char.isDigit ≠ []) &&
    decide (r1.takeWhile Char.isWhitespace ≠ []) &&
    (r2 == "item".data || r2 == "items".data)

/-- `isValidProductName(name)`. -/
def isValidProductName (name : String) : Bool :=
  if name.length < 5 || name.length > 200 then false
  else
    let low := lowerData name
    !(denyListStarts.any (fun p => p.data.isPrefixOf low)
      || denyListAnywhere.any (fun p => listIsInfix p.data low)
      || expressFeePattern low
      || itemCountPattern low)

/-! ## CSV serialization (`generateCSV`, content.js lines 1885-1996)

The source builds each row as an array of cells joined with `','` and
joins the rows with `'\n'`; the embedding keeps the rows at cell
granularity (`csvRows`) and joins at the end (`generateCSV`), which
yields the identical string. -/

/-- `formatStoreLocation` (lines 1874-1880). -/
def formatStoreLocation (sl : StoreLocation) : String :=
  String.intercalate " - "
    ((if strTruthy sl.name then [sl.name] else []) ++
     (if strTruthy sl.address then [sl.address] else []))

/-- The `order.orderNumber || order.orderId` cell source. -/
def orderNumberCell (o : Order) : String :=
  match o.orderNumber with
  | some s => if strTruthy s then s else o.orderId
  | none => o.orderId

/-- The `order.orderType === 'store' ? 'Store' : 'Online'` cell. -/
def orderTypeCell (o : Order) : String :=
  match o.orderType with
  | .store => "Store"
  | .online => "Online"

/-- Header of the detailed (`includeItems = true`) layout. -/
def detailedHeader : List String :=
  ["Order Number", "Order Date", "Status", "Item Name", "Item Price",
   "Quantity", "Subtotal", "Tax", "Order Total", "Order Type",
   "Associate Discount", "Driver Tip", "Delivery Fee", "Express Fee",
   "Store Location"]

/-- Header of the summary (`includeItems = false`) layout. -/
def summaryHeader : List String :=
  ["Order Number", "Order Date", "Status", "Item Count", "Subtotal", "Tax",
   "Order Total", "Order Type", "Associate Discount", "Driver Tip",
   "Delivery Fee", "Express Fee", "Store Location"]

/-- One detailed data row for one item of an order (lines 1915-1931). -/
def itemRow (o : Order) (it : Item) : List String :=
  [escapeCSVStr (orderNumberCell o),
   escapeCSVStr o.orderDate,
   escapeCSVStr o.status,
   escapeCSVStr it.name,
   escapeCSVStr it.price,
   toString it.quantity,
   escapeCSVStr o.subtotal,
   escapeCSVStr o.tax,
   escapeCSVStr o.total,
   escapeCSVStr (orderTypeCell o),
   escapeCSVStr o.associateDiscount,
   escapeCSVStr o.driverTip,
   escapeCSVStr o.deliveryFee,
   escapeCSVStr o.expressFee,
   escapeCSVStr (formatStoreLocation o.storeLocation)]

/-- The single row emitted for an order whose item list is empty
(lines 1935-1951): a literal `No items found` name and empty price and
quantity cells. -/
def noItemsRow (o : Order) : List String :=
  [escapeCSVStr (orderNumberCell o),
   escapeCSVStr o.orderDate,
   escapeCSVStr o.status,
   "No items found",
   "",
   "",
   escapeCSVStr o.subtotal,
   escapeCSVStr o.tax,
   escapeCSVStr o.total,
   escapeCSVStr (orderTypeCell o),
   escapeCSVStr o.associateDiscount,
   escapeCSVStr o.driverTip,
   escapeCSVStr o.deliveryFee,
   escapeCSVStr o.expressFee,
   escapeCSVStr (formatStoreLocation o.storeLocation)]

/-- All detailed rows contributed by one order
(`if (order.items && order.items.length > 0) ... else ...`). -/
def detailedOrderRows (o : Order) : List (List String) :=
  if 0 < o.items.length then o.items.map (itemRow o) else [noItemsRow o]

/-- One summary data row per order (lines 1977-1991). -/
def summaryRow (o : Order) : List String :=
  [escapeCSVStr (orderNumberCell o),
   escapeCSVStr o.orderDate,
   escapeCSVStr o.status,
   toString o.items.length,
   escapeCSVStr o.subtotal,
   escapeCSVStr o.tax,
   escapeCSVStr o.total,
   escapeCSVStr (orderTypeCell o),
   escapeCSVStr o.associateDiscount,
   escapeCSVStr o.driverTip,
   escapeCSVStr o.deliveryFee,
   escapeCSVStr o.expressFee,
   escapeCSVStr (formatStoreLocation o.storeLocation)]

/-- All rows of `generateCSV(includeItems)` at cell granularity. -/
def csvRows (includeItems : Bool) (orders : List Order) : List (List String) :=
  if includeItems then detailedHeader :: orders.flatMap detailedOrderRows
  else summaryHeader :: orders.map summaryRow

/-- `generateCSV`: cells joined with commas, rows joined with `\n`. -/
def generateCSV (includeItems : Bool) (orders : List Order) : String :=
  String.intercalate "\n" ((csvRows includeItems orders).map (String.intercalate ","))

/-! ## Image-alt-text item extraction
(`extractItemsFromOrderContainer`, content.js lines 814-864)

An image is abstracted to its `alt` attribute; the quantity-suffix
regex `/,\s*quantity\s+(\d+)$/i` is implemented character by
character. -/

structure AltImage where
  alt : String
  deriving DecidableEq, Repr

/-- The skip patterns of lines 828-837: `/^Walmart/i`,
`/^Pro Seller$/i`, `/Privacy/i`, `/^star/i`, `/rating/i`, `/logo/i`,
`/icon/i`, `/avatar/i`. -/
def containerSkipPattern (name : String) : Bool :=
  let low := lowerData name
  "walmart".data.isPrefixOf low
  || low == "pro seller".data
  || listIsInfix "privacy".data low
  || "star".data.isPrefixOf low
  || listIsInfix "rating".data low
  || listIsInfix "logo".data low
  || listIsInfix "icon".data low
  || listIsInfix "avatar".data low

/-- Reverse-scan implementation of `/,\s*quantity\s+(\d+)$/i`: when the
alt text ends with the pattern, return the text with the whole suffix
removed together with the `parseInt` of the captured digits. -/
def altQtySuffix (s : String) : Option (String × Nat) :=
  let rev := s.data.reverse
  let ds := rev.takeWhile Char.isDigit
  if ds.isEmpty then none
  else
    let r1 := rev.dropWhile Char.isDigit
    if (r1.takeWhile Char.isWhitespace).isEmpty then none
    else
      let r2 := r1.dropWhile Char.isWhitespace
      if (r2.take 8).map lowerChar == "ytitnauq".data then
        match (r2.drop 8).dropWhile Char.isWhitespace with
        | ',' :: rest => some (String.mk rest.reverse, digitsToNat ds.reverse)
        | _ => none
      else none

/-- The item name after the quantity-suffix strip
(`name.replace(/,\s*quantity\s+\d+$/i, '').trim()` when the suffix
matched, the name unchanged otherwise). -/
def altStrippedName (name : String) : String :=
  match altQtySuffix name with
  | some (s, _) => jsTrim s
  | none => name

/-- The quantity parsed from the alt-text suffix, defaulting to 1. -/
def altQuantity (name : String) : Nat :=
  match altQtySuffix name with
  | some (_, q) => q
  | none => 1

/-- Worker for `extractItemsFromOrderContainer`, threading the `seen`
set of already-emitted names. -/
def extractContainerGo : List AltImage → List String → List Item
  | [], _ => []
  | img :: rest, seen =>
    let name := jsTrim img.alt
    if !(strTruthy name) || decide (name.length < 10) || decide (name.length > 300) then
      extractContainerGo rest seen
    else if containerSkipPattern name then
      extractContainerGo rest seen
    else
      if !(seen.contains (altStrippedName name)) && isValidProductName (altStrippedName name) then
        ⟨altStrippedName name, altQuantity name, "", 0⟩ ::
          extractContainerGo rest (altStrippedName name :: seen)
      else extractContainerGo rest seen

/-- `extractItemsFromOrderContainer(container)`: one item per product
image alt text, price always empty (the list page shows no prices). -/
def extractItemsFromOrderContainer (images : List AltImage) : List Item :=
  extractContainerGo images []

/-! ## DOM-link item extraction (`extractItemsFromDOM`, lines 1411-1549)

DOM elements are abstracted to the projections the code reads: trimmed
link text, the chain of parent elements, and per element the results
of the fixed regex matches on its text. -/

/-- A `\$(\d+\.\d{2})` match: the captured text and its `parseFloat`
value (carried together because float parsing is not modelled). -/
structure PriceCap where
  cap : String
  val : ℚ
  deriving DecidableEq, Repr

/-- One element visited by the upward traversals: whether it has a
`line-price` descendant, the price match on that descendant's text,
and the price/quantity matches on the element's own `innerText`. -/
structure DomNode where
  hasLinePriceEl : Bool
  linePriceCap : Option PriceCap
  innerPriceCap : Option PriceCap
  innerQtyCap : Option Nat
  deriving DecidableEq, Repr

/-- A product link (`a[href*="/ip/"]`): trimmed text and the parent
chain, innermost first. -/
structure DomLink where
  text : String
  ancestors : List DomNode
  deriving DecidableEq, Repr

def domPriceOf : Option PriceCap → String
  | some p => "$" ++ p.cap
  | none => ""

def domPriceValOf : Option PriceCap → ℚ
  | some p => p.val
  | none => 0

/-- The bounded upward walk of strategy 1 (lines 1428-1450): up to 20
parents; on the first element with a `line-price` descendant take its
price match and the container's quantity match and stop.  Returns the
last container visited (`none` when the walk ran off the root). -/
def domAscend : Nat → List DomNode → Option DomNode → Option DomNode × Option PriceCap × Nat
  | 0, _, cur => (cur, none, 1)
  | _ + 1, [], _ => (none, none, 1)
  | fuel + 1, nd :: rest, _ =>
    if nd.hasLinePriceEl then
      (some nd, nd.linePriceCap, match nd.innerQtyCap with | some q => q | none => 1)
    else domAscend fuel rest (some nd)

/-- The regex fallback of lines 1453-1463: when the walk found no
price, re-match price and quantity on the final container's text. -/
def domFallback (cont : Option DomNode) (pc : Option PriceCap) (qty : Nat) :
    Option PriceCap × Nat :=
  if domPriceOf pc = "" then
    match cont with
    | some nd =>
      (match nd.innerPriceCap with | some p => some p | none => pc,
       match nd.innerQtyCap with | some q => q | none => qty)
    | none => (pc, qty)
  else (pc, qty)

/-- Strategy 1 of `extractItemsFromDOM`: product links. -/
def extractDOMLinks : List DomLink → List String → List Item
  | [], _ => []
  | l :: rest, seen =>
    let name := jsTrim l.text
    if strTruthy name && decide (5 < name.length) && decide (name.length < 300)
        && !(seen.contains name) then
      let walk := domAscend 20 l.ancestors none
      let pq := domFallback walk.1 walk.2.1 walk.2.2
      if isValidProductName name then
        ⟨name, pq.2, domPriceOf pq.1, domPriceValOf pq.1⟩ ::
          extractDOMLinks rest (name :: seen)
      else extractDOMLinks rest seen
    else extractDOMLinks rest seen

/-- A strategy-2 link (`a[data-testid], a[class*="product"],
a[class*="item"]`): trimmed text and the projections of
`link.closest('div') || link.parentElement` (`none` when both are
null). -/
structure FallbackLink where
  text : String
  closest : Option DomNode
  deriving DecidableEq, Repr

/-- Strategy 2 of `extractItemsFromDOM` (lines 1481-1511). -/
def extractDOMFallbackLinks : List FallbackLink → List String → List Item
  | [], _ => []
  | l :: rest, seen =>
    let name := jsTrim l.text
    if strTruthy name && decide (10 < name.length) && decide (name.length < 300)
        && !(seen.contains name) && isValidProductName name then
      let pc := match l.closest with | some nd => nd.innerPriceCap | none => none
      let qty := match l.closest with
        | some nd => match nd.innerQtyCap with | some q => q | none => 1
        | none => 1
      ⟨name, qty, domPriceOf pc, domPriceValOf pc⟩ ::
        extractDOMFallbackLinks rest (name :: seen)
    else extractDOMFallbackLinks rest seen

/-- A strategy-3 element (`span, div, p`): trimmed text and the price
match on the parent's text (`none` also covers a missing parent). -/
structure TextElement where
  text : String
  parentPriceCap : Option PriceCap
  deriving DecidableEq, Repr

/-- Strategy 3 of `extractItemsFromDOM` (lines 1514-1546): substantial
text near a price.  The `includes` checks on `'$'` and `'Qty'` are
case-sensitive in the source. -/
def extractDOMTextElements : List TextElement → List String → List Item
  | [], _ => []
  | e :: rest, seen =>
    let text := jsTrim e.text
    if strTruthy text && decide (15 < text.length) && decide (text.length < 200)
        && !(strIncludes "$" text) && !(strIncludes "Qty" text)
        && !(seen.contains text) && isValidProductName text then
      match e.parentPriceCap with
      | some p => ⟨text, 1, "$" ++ p.cap, p.val⟩ :: extractDOMTextElements rest (text :: seen)
      | none => extractDOMTextElements rest seen
    else extractDOMTextElements rest seen

/-- A detail-page document as seen by `extractItemsFromDOM`. -/
structure Doc where
  productLinks : List DomLink
  fallbackLinks : List FallbackLink
  textElements : List TextElement
  deriving Repr

/-- `extractItemsFromDOM(doc)`.  The `seen` set is shared between the
three strategies in the source, but a later strategy only runs when
the earlier ones produced no items, and names are added to `seen`
exactly when an item is pushed, so each strategy starts with an empty
`seen` set. -/
def extractItemsFromDOM (doc : Doc) : List Item :=
  let items := extractDOMLinks doc.productLinks []
  let items := if items.length = 0 then extractDOMFallbackLinks doc.fallbackLinks [] else items
  if items.length = 0 then extractDOMTextElements doc.textElements [] else items

/-! ## Receipt item extraction (`extractItemsFromReceipt`, lines 171-235) -/

/-- An ancestor element in the receipt walk: price and quantity
matches on its text. -/
structure ReceiptNode where
  priceCap : Option PriceCap
  qtyCap : Option Nat
  deriving DecidableEq, Repr

structure ReceiptLink where
  text : String
  ancestors : List ReceiptNode
  deriving DecidableEq, Repr

/-- The upward walk of lines 185-200: price and quantity are
overwritten at every level where their regexes match; stop as soon as
a price has been found. -/
def receiptAscend : Nat → List ReceiptNode → Option PriceCap → Nat →
    Option PriceCap × Nat
  | 0, _, pc, q => (pc, q)
  | _ + 1, [], pc, q => (pc, q)
  | fuel + 1, nd :: rest, pc, q =>
    let pc' := match nd.priceCap with | some p => some p | none => pc
    let q' := match nd.qtyCap with | some n => n | none => q
    if pc'.isSome then (pc', q') else receiptAscend fuel rest pc' q'

/-- First pass of `extractItemsFromReceipt`: product links. -/
def extractReceiptLinks : List ReceiptLink → List String → List Item
  | [], _ => []
  | l :: rest, seen =>
    let name := jsTrim l.text
    if strTruthy name && decide (5 < name.length) && decide (name.length < 300)
        && !(seen.contains name) && isValidProductName name then
      let pq := receiptAscend 20 l.ancestors none 1
      ⟨name, pq.2, domPriceOf pq.1, domPriceValOf pq.1⟩ ::
        extractReceiptLinks rest (name :: seen)
    else extractReceiptLinks rest seen

/-- One line of visible text, abstracted to the match result of
`/^(.{10,80})\s+\$(\d+\.\d{2})(?:\s*(?:Qty\s*)?(\d+))?/`: raw name
capture, price capture and optional quantity capture. -/
structure ReceiptLine where
  lineMatch : Option (String × PriceCap × Option Nat)
  deriving DecidableEq, Repr

/-- Second pass of `extractItemsFromReceipt` (lines 214-232):
text-based receipt lines. -/
def extractReceiptLines : List ReceiptLine → List String → List Item
  | [], _ => []
  | ln :: rest, seen =>
    match ln.lineMatch with
    | some (rawName, pc, qcap) =>
      let name := jsTrim rawName
      if isValidProductName name && !(seen.contains name) then
        ⟨name, match qcap with | some q => q | none => 1, "$" ++ pc.cap, pc.val⟩ ::
          extractReceiptLines rest (name :: seen)
      else extractReceiptLines rest seen
    | none => extractReceiptLines rest seen

/-- A receipt-style page as seen by `extractItemsFromReceipt`. -/
structure ReceiptPage where
  productLinks : List ReceiptLink
  lines : List ReceiptLine
  deriving Repr

/-- `extractItemsFromReceipt(doc, pageText)`. -/
def extractItemsFromReceipt (page : ReceiptPage) : List Item :=
  let items := extractReceiptLinks page.productLinks []
  if items.length = 0 then extractReceiptLines page.lines [] else items

/-! ## Structured-data item extraction
(`extractItemsFromNextData`, lines 548-677)

A line item of the embedded JSON is abstracted to the resolved results
of the alias cascades the code applies:
`name` is `productInfo.name || productInfo.productName ||
lineItem.name || lineItem.description || ''`; `priceStr`/`priceVal`
are the resolved display string and numeric value after the
`linePrice`/`unitPrice` fallbacks and the `price > 0 && !priceStr`
fixup.  The two quantity sources are kept separate because the JS
`||` chain treats the number `0` as falsy. -/

structure NDLineItem where
  name : String
  liQuantity : Option Nat
  piQuantity : Option Nat
  priceStr : String
  priceVal : ℚ
  deriving DecidableEq, Repr

/-- `group.items || group.lineItems || []`. -/
structure NDGroup where
  lineItems : List NDLineItem
  deriving DecidableEq, Repr

structure NDDirectItem where
  name : String
  quantity : Option Nat
  priceVal : ℚ
  deriving DecidableEq, Repr

/-- The embedded payload, abstracted to the six candidate group paths
(in the order the source tries them; `none` = path missing or not an
array) and the direct-items fallback list. -/
structure NextData where
  groupPaths : List (Option (List NDGroup))
  directItems : List NDDirectItem
  deriving Repr

/-- JS `a || b` on an optional number: both `undefined` and `0` are
falsy. -/
def natOrElse (a : Option Nat) (b : Nat) : Nat :=
  match a with
  | some n => if n = 0 then b else n
  | none => b

/-- `x.toFixed(2)` for the nonnegative rational prices of the model
(binary-float rounding edge cases are outside the model). -/
def toFixed2 (q : ℚ) : String :=
  let cents : Int := ⌊q * 100 + 1 / 2⌋
  let whole := cents / 100
  let frac := (cents % 100).toNat
  toString whole ++ "." ++ (if frac < 10 then "0" else "") ++ toString frac

/-- Line items of one group path, with the `seen` name set threaded
through. -/
def ndLineItemsGo : List NDLineItem → List String → List Item × List String
  | [], seen => ([], seen)
  | li :: rest, seen =>
    if !(strTruthy li.name) || seen.contains li.name then ndLineItemsGo rest seen
    else
      let step := ndLineItemsGo rest (li.name :: seen)
      (⟨li.name, natOrElse li.liQuantity (natOrElse li.piQuantity 1),
        li.priceStr, li.priceVal⟩ :: step.1, step.2)

/-- The path loop of lines 568-644: the first candidate path whose
groups yield any items wins; paths that are missing or yield nothing
fall through. -/
def ndPathsGo : List (Option (List NDGroup)) → List String → List Item × List String
  | [], seen => ([], seen)
  | none :: rest, seen => ndPathsGo rest seen
  | some gs :: rest, seen =>
    let step := ndLineItemsGo (gs.flatMap (·.lineItems)) seen
    if 0 < step.1.length then step
    else ndPathsGo rest step.2

/-- The direct-items fallback of lines 647-671. -/
def ndDirectGo : List NDDirectItem → List String → List Item
  | [], _ => []
  | it :: rest, seen =>
    if !(strTruthy it.name) || seen.contains it.name then ndDirectGo rest seen
    else
      ⟨it.name, natOrElse it.quantity 1,
       if 0 < it.priceVal then "$" ++ toFixed2 it.priceVal else "",
       it.priceVal⟩ :: ndDirectGo rest (it.name :: seen)

/-- `extractItemsFromNextData(nextData, orderId)`. -/
def extractItemsFromNextData (nd : NextData) : List Item :=
  let step := ndPathsGo nd.groupPaths []
  if step.1.length = 0 then ndDirectGo nd.directItems step.2 else step.1

/-! ## List-page collection
(`extractOrderDataFromListPage`, lines 241-398)

A list-page order container is abstracted to the regex/`includes`
projections the code reads from its text, plus its product images.
`DateEnv` supplies the strings the source derives from `new Date()`.
The month-day regex matches are carried as a (month, day) capture
pair; the source's `match[0]` for `/(Jan|...)\s+\d{1,2}/i` is rebuilt
as `month ++ " " ++ day` (single-space whitespace assumed). -/

structure DateEnv where
  todayStr : String
  yearStr : String
  deriving Repr

structure ListContainer where
  linkOrderId : Option String
  hasArrivesToday : Bool
  hasArrivesBy : Bool
  arrivesByCap : Option String
  hasDeliveredOn : Bool
  deliveredOnCap : Option (String × String)
  hasDelivered : Bool
  monthDayCap : Option (String × String)
  hasPreparing : Bool
  hasOnTheWay : Bool
  hasStorePurchase : Bool
  hasTC : Bool
  orderTotalCap : Option String
  images : List AltImage
  deriving Repr

/-- The status/date `if` chain of lines 268-303; returns
`(orderDate, status)`, both defaulting to `Unknown`. -/
def listStatusDate (env : DateEnv) (c : ListContainer) : String × String :=
  if c.hasArrivesToday then (env.todayStr, "Arrives today")
  else if c.hasArrivesBy then
    (match c.monthDayCap with
     | some (m, d) => m ++ " " ++ d ++ ", " ++ env.yearStr
     | none => "Unknown",
     match c.arrivesByCap with
     | some cap => "Arrives by " ++ cap
     | none => "Unknown")
  else if c.hasDeliveredOn then
    (match c.deliveredOnCap with
     | some (m, d) => m ++ " " ++ d ++ ", " ++ env.yearStr
     | none => "Unknown", "Delivered")
  else if c.hasDelivered then
    (match c.monthDayCap with
     | some (m, d) => m ++ " " ++ d ++ ", " ++ env.yearStr
     | none => "Unknown", "Delivered")
  else if c.hasPreparing then ("Unknown", "Preparing")
  else if c.hasOnTheWay then ("Unknown", "On the way")
  else if c.hasStorePurchase then ("Unknown", "Store purchase")
  else ("Unknown", "Unknown")

/-- Build the order record pushed for one primary container
(lines 315-330). -/
def buildListOrder (env : DateEnv) (oid : String) (c : ListContainer) : Order :=
  let ds := listStatusDate env c
  { orderId := oid, orderNumber := some oid,
    orderType := if c.hasStorePurchase || c.hasTC then .store else .online,
    orderDate := ds.1, status := ds.2,
    items := extractItemsFromOrderContainer c.images,
    subtotal := "", tax := "",
    total := match c.orderTotalCap with | some t => "$" ++ t | none => "",
    associateDiscount := "", driverTip := "", deliveryFee := "",
    expressFee := "", storeLocation := ⟨"", ""⟩ }

/-- Primary collection pass over `data-testid="order-N"` containers,
with the `seenOrderIds` set threaded through. -/
def collectPrimary (env : DateEnv) : List ListContainer → List String → List Order
  | [], _ => []
  | c :: rest, seen =>
    match c.linkOrderId with
    | none => collectPrimary env rest seen
    | some oid =>
      if seen.contains oid then collectPrimary env rest seen
      else buildListOrder env oid c :: collectPrimary env rest (oid :: seen)

/-- The container reached from a return link by `findOrderContainer`,
abstracted to the projections the fallback branch reads. -/
structure FallbackContainer where
  hasArrivesToday : Bool
  hasArrivesBy : Bool
  arrivesByCap : Option String
  hasDelivered : Bool
  hasStorePurchase : Bool
  hasTC : Bool
  orderTotalCap : Option String
  images : List AltImage
  deriving Repr

structure ReturnLink where
  linkOrderId : Option String
  container : FallbackContainer
  deriving Repr

/-- The shorter status chain of the fallback branch (lines 354-367):
only `Arrives today` also sets a date. -/
def fallbackStatusDate (env : DateEnv) (c : FallbackContainer) : String × String :=
  if c.hasArrivesToday then (env.todayStr, "Arrives today")
  else if c.hasArrivesBy then
    ("Unknown",
     match c.arrivesByCap with
     | some cap => "Arrives by " ++ cap
     | none => "Unknown")
  else if c.hasDelivered then ("Unknown", "Delivered")
  else if c.hasStorePurchase then ("Unknown", "Store purchase")
  else ("Unknown", "Unknown")

/-- Build the order record pushed for one return link (lines 375-390). -/
def buildFallbackOrder (env : DateEnv) (oid : String) (c : FallbackContainer) : Order :=
  let ds := fallbackStatusDate env c
  { orderId := oid, orderNumber := some oid,
    orderType := if c.hasStorePurchase || c.hasTC then .store else .online,
    orderDate := ds.1, status := ds.2,
    items := extractItemsFromOrderContainer c.images,
    subtotal := "", tax := "",
    total := match c.orderTotalCap with | some t => "$" ++ t | none => "",
    associateDiscount := "", driverTip := "", deliveryFee := "",
    expressFee := "", storeLocation := ⟨"", ""⟩ }

/-- Fallback collection pass over return links. -/
def collectFallback (env : DateEnv) : List ReturnLink → List String → List Order
  | [], _ => []
  | l :: rest, seen =>
    match l.linkOrderId with
    | none => collectFallback env rest seen
    | some oid =>
      if seen.contains oid then collectFallback env rest seen
      else buildFallbackOrder env oid l.container :: collectFallback env rest (oid :: seen)

/-- One rendered order-list page. -/
structure ListPage where
  containers : List ListContainer
  returnLinks : List ReturnLink
  deriving Repr

/-- `extractOrderDataFromListPage()`.  The `seenOrderIds` set is shared
between the two branches in the source, but ids are added exactly when
an order is pushed and the fallback only runs when the primary pass
pushed nothing, so the fallback starts with an empty set. -/
def extractOrderDataFromListPage (env : DateEnv) (p : ListPage) : List Order :=
  let orders := collectPrimary env p.containers []
  if orders.length = 0 then collectFallback env p.returnLinks [] else orders

/-! ## Detail fetching (`fetchOrderDetails`, lines 947-1061) -/

/-- The shape of a `fetchOrderFromAPI` response, abstracted to the
three truthiness tests the caller applies
(`apiData.orderDetails || apiData.lineItems || apiData.items`).
`fetchOrderFromAPI` itself catches every error and returns `null`
(modelled as `none` from the environment). -/
structure ApiData where
  hasOrderDetails : Bool
  hasLineItems : Bool
  hasItems : Bool
  deriving DecidableEq, Repr

/-- An order-detail HTML page, abstracted to the projection the
store-purchase classifier reads: whether the main text matches
`/TC#\s*[\d-]+/`. -/
structure HtmlPage where
  hasTCPattern : Bool
  deriving DecidableEq, Repr

/-- One deduplicated order link (`getOrderIdsFromPage` output). -/
structure OrderLink where
  orderId : String
  url : String
  isStore : Bool
  deriving DecidableEq, Repr

/-- A raw `/orders/` anchor: the `/\/orders\/(\d+)(\?.*)?/` id capture
(`none` = no match) and the href. -/
structure RawOrderLink where
  idCap : Option String
  url : String
  deriving DecidableEq, Repr

/-- JS `Map.set` on an association list keyed by `orderId`: updating
an existing key keeps its position, a new key is appended. -/
def mapSet (m : List OrderLink) (o : OrderLink) : List OrderLink :=
  if m.any (fun e => e.orderId == o.orderId) then
    m.map (fun e => if e.orderId == o.orderId then o else e)
  else m ++ [o]

/-- `getOrderIdsFromPage()` (lines 870-895): deduplicate links by
order id, preferring a store-purchase URL when one appears. -/
def getOrderIdsFromPage (links : List RawOrderLink) : List OrderLink :=
  links.foldl
    (fun m l =>
      match l.idCap with
      | none => m
      | some oid =>
        let isStore := strIncludes "storePurchase=true" l.url
        if !(m.any (fun e => e.orderId == oid)) || isStore then
          mapSet m ⟨oid, l.url, isStore⟩
        else m)
    []

/-- Environment for `fetchOrderDetails`: the network and the three
order-shape parsers.  The parsers are abstracted as fallible
functions: in the source they are total except for type errors on
malformed data (e.g. `toFixed` on a non-number), and any such throw is
absorbed by the same `catch` as a network failure. -/
structure FetchEnv where
  api : String → Option ApiData
  fetchHtml : String → Except String HtmlPage
  parseJSON : ApiData → String → Except String Order
  parseStore : HtmlPage → String → Except String Order
  parseOnline : HtmlPage → String → Except String Order

/-- `isStorePurchase(url, doc)` (lines 27-45). -/
def isStorePurchaseCheck (url : String) (doc : HtmlPage) : Bool :=
  strIncludes "storePurchase=true" url || doc.hasTCPattern

/-- The `try` body of `fetchOrderDetails`: API attempt first, then the
HTML fetch with the store/online classifier dispatch. -/
def fetchOrderDetailsBody (env : FetchEnv) (info : OrderLink) : Except String Order :=
  let viaHtml : Except String Order :=
    match env.fetchHtml info.url with
    | .error m => .error m
    | .ok doc =>
      if info.isStore || isStorePurchaseCheck info.url doc then
        env.parseStore doc info.orderId
      else
        env.parseOnline doc info.orderId
  match env.api info.orderId with
  | some d =>
    if d.hasOrderDetails || d.hasLineItems || d.hasItems then
      env.parseJSON d info.orderId
    else viaHtml
  | none => viaHtml

/-- The error record of the `catch` block (lines 1044-1059); note the
absent `orderNumber` field. -/
def fetchErrorOrder (info : OrderLink) (msg : String) : Order :=
  { orderId := info.orderId, orderNumber := none,
    orderType := if info.isStore then .store else .online,
    orderDate := "Unknown", status := "Error fetching", items := [],
    subtotal := "", tax := "", total := "", associateDiscount := "",
    driverTip := "", deliveryFee := "", expressFee := "",
    storeLocation := ⟨"", ""⟩, error := some msg }

/-- `fetchOrderDetails(orderInfo)`: the `try`/`catch` wrapper. -/
def fetchOrderDetails (env : FetchEnv) (info : OrderLink) : Order :=
  match fetchOrderDetailsBody env info with
  | .ok o => o
  | .error msg => fetchErrorOrder info msg

/-! ## Export orchestration (`exportOrders`, lines 1651-1869)

The loop is embedded in `Except String`: the only modelled exception
source is `sendProgress` (`chrome.runtime.sendMessage` throws
synchronously when the extension context is invalidated), which the
environment controls per call index.  Time is counted in days:
`cutoffDate = now − dateRange` and `env.parseDate` stands for
`new Date(string)` (`none` = `Invalid Date`, whose comparisons are
always false).  Cooperative cancellation (`isExporting`) is not
modelled — no claim concerns it — so a run processes its pages to the
natural stopping condition. -/

/-- The metadata object returned by `fetchDetailedItems`
(`extractOrderMetaFromNextData` output; every field optional). -/
structure OrderMeta where
  orderDate : Option String := none
  subtotal : Option String := none
  tax : Option String := none
  total : Option String := none
  driverTip : Option String := none
  associateDiscount : Option String := none
  deliveryFee : Option String := none
  expressFee : Option String := none
  deriving DecidableEq, Repr

/-- Merging a `fetchDetailedItems` result into an order
(lines 1746-1783): items replaced only when non-empty; date only when
currently `Unknown`; subtotal/tax/total only when currently empty;
tip/discount/fees whenever fetched. -/
def applyDetailedFetch (formatDate : String → String) (o : Order)
    (res : List Item × Option OrderMeta) : Order :=
  let o := if 0 < res.1.length then { o with items := res.1 } else o
  match res.2 with
  | none => o
  | some m =>
    let o := if optStrTruthy m.orderDate && (o.orderDate == "Unknown")
             then { o with orderDate := formatDate (m.orderDate.getD "") } else o
    let o := if optStrTruthy m.subtotal && !(strTruthy o.subtotal)
             then { o with subtotal := m.subtotal.getD "" } else o
    let o := if optStrTruthy m.tax && !(strTruthy o.tax)
             then { o with tax := m.tax.getD "" } else o
    let o := if optStrTruthy m.total && !(strTruthy o.total)
             then { o with total := m.total.getD "" } else o
    let o := if optStrTruthy m.driverTip
             then { o with driverTip := m.driverTip.getD "" } else o
    let o := if optStrTruthy m.associateDiscount
             then { o with associateDiscount := m.associateDiscount.getD "" } else o
    let o := if optStrTruthy m.deliveryFee
             then { o with deliveryFee := m.deliveryFee.getD "" } else o
    let o := if optStrTruthy m.expressFee
             then { o with expressFee := m.expressFee.getD "" } else o
    o

/-- Run state of one `exportOrders` invocation.  `orders` and
`processedOrders` mirror the instance fields; `progressCalls` counts
`sendProgress` calls (the index consulted by the failure model);
`orderDetailsFetches` and `detailedItemsFetches` count the network
round-trips of `fetchOrderDetails` and `fetchDetailedItems`
(instrumentation for the claims about when the Detail Fetcher runs). -/
structure RunState where
  orders : List Order
  processedOrders : Nat
  reachedCutoff : Bool
  progressCalls : Nat
  orderDetailsFetches : Nat
  detailedItemsFetches : Nat
  deriving DecidableEq, Repr

def initRunState : RunState :=
  { orders := [], processedOrders := 0, reachedCutoff := false,
    progressCalls := 0, orderDetailsFetches := 0, detailedItemsFetches := 0 }

/-- The caller-supplied options, with the defaults of lines 1654-1660
(`dateRange = none` models the `'all'` sentinel). -/
structure ExportOptions where
  includeItems : Bool := true
  allPages : Bool := true
  dateRange : Option Int := some 30
  orderTypeFilter : String := "all"
  fetchItemPrices : Bool := false
  deriving Repr

/-- The run environment: current-date strings, the day clock, the host
date parser/formatter, the progress channel and the network. -/
structure Env where
  dateEnv : DateEnv
  now : Int
  parseDate : String → Option Int
  formatDate : String → String
  sendProgressFail : Nat → Option String
  fetch : FetchEnv
  fetchDetailedItems : String → Bool → Option (List Item × Option OrderMeta)

/-- One `sendProgress` call. -/
def progress (env : Env) (st : RunState) : Except String RunState :=
  match env.sendProgressFail st.progressCalls with
  | some msg => .error msg
  | none => .ok { st with progressCalls := st.progressCalls + 1 }

/-- The successor state of one successful `sendProgress` call. -/
def bumpProgress (st : RunState) : RunState :=
  { st with progressCalls := st.progressCalls + 1 }

/-- `cutoffDate` (lines 1667-1671). -/
def cutoffOf (env : Env) (opts : ExportOptions) : Option Int :=
  match opts.dateRange with
  | some d => some (env.now - d)
  | none => none

/-- The date-range check of lines 1789-1798: returns
`(includeOrder, reachedCutoff)`.  `parseDate = none` models
`new Date(...)` yielding an `Invalid Date`, whose `<` comparison is
false, so the order stays included. -/
def dateCheckOf (env : Env) (cutoff : Option Int) (st : RunState) (o : Order) :
    Bool × Bool :=
  match cutoff with
  | some c =>
    if o.orderDate ≠ "Unknown" then
      match env.parseDate o.orderDate with
      | some t => if t < c then (false, true) else (true, st.reachedCutoff)
      | none => (true, st.reachedCutoff)
    else (true, st.reachedCutoff)
  | none => (true, st.reachedCutoff)

/-- The order-type filter of lines 1801-1809. -/
def typeFilterOf (opts : ExportOptions) (o : Order) (inc : Bool) : Bool :=
  if inc = true ∧ opts.orderTypeFilter ≠ "all" then
    if opts.orderTypeFilter = "online" ∧ o.orderType = OrderType.store then false
    else if opts.orderTypeFilter = "store" ∧ o.orderType ≠ OrderType.store then false
    else inc
  else inc

/-- The per-order body of the loop (lines 1725-1820): progress event,
optional price enrichment, date-range check, order-type filter,
append. -/
def processOrder (env : Env) (opts : ExportOptions) (cutoff : Option Int)
    (st : RunState) (o : Order) : Except String RunState :=
  match progress env st with
  | .error m => .error m
  | .ok st =>
    let step : Except String (Order × RunState) :=
      if opts.fetchItemPrices && opts.includeItems then
        match progress env st with
        | .error m => .error m
        | .ok st =>
          let st := { st with detailedItemsFetches := st.detailedItemsFetches + 1 }
          match env.fetchDetailedItems o.orderId (o.orderType == OrderType.store) with
          | some res => .ok (applyDetailedFetch env.formatDate o res, st)
          | none => .ok (o, st)
      else .ok (o, st)
    match step with
    | .error m => .error m
    | .ok (o, st) =>
      let dateCheck := dateCheckOf env cutoff st o
      let includeOrder := typeFilterOf opts o dateCheck.1
      .ok { st with
            orders := if includeOrder then st.orders ++ [o] else st.orders,
            reachedCutoff := dateCheck.2,
            processedOrders := st.processedOrders + 1 }

/-- The per-order loop over one page's collected orders. -/
def processOrdersLoop (env : Env) (opts : ExportOptions) (cutoff : Option Int) :
    RunState → List Order → Except String RunState
  | st, [] => .ok st
  | st, o :: rest =>
    match processOrder env opts cutoff st o with
    | .error m => .error m
    | .ok st => processOrdersLoop env opts cutoff st rest

/-- The individual-fetch fallback (lines 1687-1716): one progress
event and one `fetchOrderDetails` round-trip per order link; the
result is appended when it carries a non-empty `orderId`.
`fetchOrderDetails` catches internally and never throws, so the
`try`/`catch` around it in the source loop is inert. -/
def fallbackFetchLoop (env : Env) : List OrderLink → List Order → RunState →
    Except String (List Order × RunState)
  | [], acc, st => .ok (acc, st)
  | info :: rest, acc, st =>
    match progress env st with
    | .error m => .error m
    | .ok st =>
      let st := { st with orderDetailsFetches := st.orderDetailsFetches + 1 }
      let details := fetchOrderDetails env.fetch info
      let acc := if strTruthy details.orderId then acc ++ [details] else acc
      fallbackFetchLoop env rest acc st

/-- One rendered page: its list-page markup, its raw order links (for
the fallback) and whether an enabled next-page control is present. -/
structure Page where
  listPage : ListPage
  rawLinks : List RawOrderLink
  hasNextPage : Bool

/-- One iteration of the `while` loop body (lines 1678-1820). -/
def processPage (env : Env) (opts : ExportOptions) (cutoff : Option Int)
    (st : RunState) (p : Page) : Except String RunState :=
  match progress env st with
  | .error m => .error m
  | .ok st =>
    let pageOrders := extractOrderDataFromListPage env.dateEnv p.listPage
    let afterFallback : Except String (List Order × RunState) :=
      if pageOrders.length = 0 then
        match progress env st with
        | .error m => .error m
        | .ok st => fallbackFetchLoop env (getOrderIdsFromPage p.rawLinks) [] st
      else .ok (pageOrders, st)
    match afterFallback with
    | .error m => .error m
    | .ok (pageOrders, st) =>
      let afterEmptyNote : Except String RunState :=
        if pageOrders.length = 0 then progress env st else .ok st
      match afterEmptyNote with
      | .error m => .error m
      | .ok st => processOrdersLoop env opts cutoff st pageOrders

/-- The page loop (lines 1677-1837).  The list models the pages
navigation would reach in order; pagination continues exactly when
`allPages` is set, the cutoff flag is unset, and the next-page control
is present and navigation succeeds. -/
def runPages (env : Env) (opts : ExportOptions) (cutoff : Option Int) :
    RunState → List Page → Except String RunState
  | st, [] => .ok st
  | st, p :: rest =>
    match processPage env opts cutoff st p with
    | .error m => .error m
    | .ok st =>
      if opts.allPages = true ∧ st.reachedCutoff = false ∧ p.hasNextPage = true ∧ rest.isEmpty = false then
        match progress env st with
        | .error m => .error m
        | .ok st => runPages env opts cutoff st rest
      else .ok st

/-- The `try` body of `exportOrders` (lines 1676-1858): the page loop,
the final progress event, CSV generation and the item count. -/
def exportOrdersBody (env : Env) (opts : ExportOptions) (pages : List Page) :
    Except String (RunState × String × Nat) :=
  match runPages env opts (cutoffOf env opts) initRunState pages with
  | .error m => .error m
  | .ok st =>
    match progress env st with
    | .error m => .error m
    | .ok st =>
      .ok (st, generateCSV opts.includeItems st.orders,
           (st.orders.map (fun o => o.items.length)).sum)

/-- The message-level result of a run (lines 1853-1865): the failure
branch carries only `success: false` and the error message. -/
structure ExportResult where
  success : Bool
  csv : Option String := none
  orderCount : Option Nat := none
  itemCount : Option Nat := none
  error : Option String := none
  deriving DecidableEq, Repr

/-- `exportOrders(options)` with its `catch`. -/
def exportOrders (env : Env) (opts : ExportOptions) (pages : List Page) : ExportResult :=
  match exportOrdersBody env opts pages with
  | .ok r => { success := true, csv := some r.2.1,
               orderCount := some r.1.orders.length, itemCount := some r.2.2 }
  | .error m => { success := false, error := some m }

/-- The accumulated run state of a successful run (`initRunState` when
the run failed); used to state claims about the accumulator the CSV is
generated from. -/
def runAccum (env : Env) (opts : ExportOptions) (pages : List Page) : RunState :=
  match exportOrdersBody env opts pages with
  | .ok r => r.1
  | .error _ => initRunState

/-- Sample order with an empty item list, used as the concrete witness
input for the CSV row-count claim. -/
def sampleEmptyOrder : Order :=
  { orderId := "200000001", orderNumber := some "200000001",
    orderType := .online, orderDate := "Jan 2, 2026", status := "Delivered",
    items := [], subtotal := "", tax := "", total := "$10.00",
    associateDiscount := "", driverTip := "", deliveryFee := "",
    expressFee := "", storeLocation := ⟨"", ""⟩ }

/-! ## Concrete fixtures used by witnesses and counterexamples -/

/-- A fetch environment in which the API yields nothing and the HTML
fetch fails (network down). -/
def failFetchEnv : FetchEnv :=
  { api := fun _ => none,
    fetchHtml := fun _ => .error "network down",
    parseJSON := fun _ _ => .error "unused",
    parseStore := fun _ _ => .error "unused",
    parseOnline := fun _ _ => .error "unused" }

/-- A concrete online-order link. -/
def sampleLink : OrderLink :=
  { orderId := "555001", url := "https://www.walmart.com/orders/555001", isStore := false }

/-- A baseline run environment: healthy progress channel, failing
network, no detailed-item fetches. -/
def baseEnv : Env :=
  { dateEnv := { todayStr := "Oct 12, 2026", yearStr := "2026" },
    now := 100,
    parseDate := fun _ => none,
    formatDate := fun s => s,
    sendProgressFail := fun _ => none,
    fetch := failFetchEnv,
    fetchDetailedItems := fun _ _ => none }

/-- A list-page container for a delivered online order with the given
id and no product images. -/
def simpleContainer (oid : String) : ListContainer :=
  { linkOrderId := some oid, hasArrivesToday := false, hasArrivesBy := false,
    arrivesByCap := none, hasDeliveredOn := false, deliveredOnCap := none,
    hasDelivered := true, monthDayCap := some ("Jan", "2"),
    hasPreparing := false, hasOnTheWay := false, hasStorePurchase := false,
    hasTC := false, orderTotalCap := some "45.67", images := [] }

/-- A one-container page. -/
def simplePage (oid : String) (next : Bool) : Page :=
  { listPage := { containers := [simpleContainer oid], returnLinks := [] },
    rawLinks := [], hasNextPage := next }

/-- Export options with `dateRange = 'all'` and the other defaults. -/
def allDatesOptions : ExportOptions := { dateRange := none }

/-- An environment whose progress channel throws at the fourth
`sendProgress` call — after the first page's order has been
accumulated, at the start of the second page. -/
def failingProgressEnv : Env :=
  { baseEnv with
    sendProgressFail := fun n =>
      if n = 3 then some "Extension context invalidated" else none }

/-- Two pages that both expose the same order id. -/
def dupPages : List Page := [simplePage "123" true, simplePage "123" false]

/-- Two pages with distinct order ids. -/
def failPages : List Page := [simplePage "1" true, simplePage "2" false]

/-- A fetch environment whose HTML parse path returns an order with a
priced item. -/
def priceyFetchEnv : FetchEnv :=
  { api := fun _ => none,
    fetchHtml := fun _ => .ok { hasTCPattern := false },
    parseJSON := fun _ _ => .error "unused",
    parseStore := fun _ _ => .error "unused",
    parseOnline := fun _ oid =>
      .ok { orderId := oid, orderNumber := some oid, orderType := .online,
            orderDate := "Jan 5, 2026", status := "Delivered",
            items := [{ name := "Great Value Paper Towels", quantity := 2,
                        price := "$5.00", priceValue := 5 }],
            subtotal := "", tax := "", total := "$5.00",
            associateDiscount := "", driverTip := "", deliveryFee := "",
            expressFee := "", storeLocation := ⟨"", ""⟩ } }

/-- A page whose list extraction finds nothing but which exposes one
raw order link, so the individual-fetch fallback fires. -/
def fallbackPage : Page :=
  { listPage := { containers := [], returnLinks := [] },
    rawLinks := [{ idCap := some "42", url := "https://www.walmart.com/orders/42" }],
    hasNextPage := false }

/-- The baseline environment with the pricey fetch backend. -/
def fallbackEnv : Env := { baseEnv with fetch := priceyFetchEnv }

/-- An environment whose date parser knows two concrete date strings:
`d10` parses 10 days before `now`, `d40` parses 40 days before. -/
def cutoffTestEnv : Env :=
  { baseEnv with
    parseDate := fun s =>
      if s = "d10" then some 90 else if s = "d40" then some 60 else none }

/-- A sample order carrying the given date string. -/
def datedOrder (ds : String) : Order :=
  { sampleEmptyOrder with orderDate := ds }

/-- Positivity of every quantity capture an element offers
(used to state under which inputs the extractors emit positive
quantities). -/
def nodeQtyPos (nd : DomNode) : Prop :=
  ∀ n, nd.innerQtyCap = some n → 1 ≤ n

/-- All `Qty` captures reachable by `extractItemsFromDOM` are positive. -/
def docQtyCapsPos (doc : Doc) : Prop :=
  (∀ l ∈ doc.productLinks, ∀ nd ∈ l.ancestors, nodeQtyPos nd)
  ∧ (∀ l ∈ doc.fallbackLinks, ∀ nd, l.closest = some nd → nodeQtyPos nd)

/-- All quantity captures reachable by `extractItemsFromReceipt` are
positive. -/
def receiptQtyCapsPos (page : ReceiptPage) : Prop :=
  (∀ l ∈ page.productLinks, ∀ nd ∈ l.ancestors, ∀ n, nd.qtyCap = some n → 1 ≤ n)
  ∧ (∀ ln ∈ page.lines, ∀ s pc q, ln.lineMatch = some (s, pc, some q) → 1 ≤ q)

/-- Pairwise distinctness of item names, as claimed for every
single-pass item extraction. -/
def distinctNames (l : List Item) : Prop :=
  l.Pairwise (fun a b => a.name ≠ b.name)

/-! ## Theorems -/

theorem extractContainerGo_notMem :
    ∀ (images : List AltImage) (seen : List String),
      ∀ it ∈ extractContainerGo images seen, seen.contains it.name = false := by
  intro images
  induction images with
  | nil => intro seen it hit; simp [extractContainerGo] at hit
  | cons img rest ih =>
    intro seen it hit
    simp only [extractContainerGo] at hit
    split at hit
    · exact ih seen it hit
    · split at hit
      · exact ih seen it hit
      · split at hit
        · rcases List.mem_cons.mp hit with rfl | hmem
          · rename_i hcond
            have h1 := Bool.and_elim_left hcond
            simpa using h1
          · have h2 := ih _ it hmem
            simp only [List.contains_cons, Bool.or_eq_false_iff] at h2
            exact h2.2
        · exact ih seen it hit

theorem extractContainerGo_distinct :
    ∀ (images : List AltImage) (seen : List String),
      distinctNames (extractContainerGo images seen) := by
  intro images
  induction images with
  | nil => intro seen; simp [extractContainerGo, distinctNames]
  | cons img rest ih =>
    intro seen
    show List.Pairwise _ (extractContainerGo (img :: rest) seen)
    simp only [extractContainerGo]
    split
    · exact ih seen
    · split
      · exact ih seen
      · split
        · refine List.Pairwise.cons ?_ (ih _)
          intro b hb heq
          have hnm := extractContainerGo_notMem _ _ b hb
          simp only [List.contains_cons, Bool.or_eq_false_iff] at hnm
          have hne : ¬ b.name = altStrippedName (jsTrim img.alt) := by simpa using hnm.1
          exact hne (by simpa using heq.symm)
        · exact ih seen

theorem extractDOMLinks_notMem :
    ∀ (links : List DomLink) (seen : List String),
      ∀ it ∈ extractDOMLinks links seen, seen.contains it.name = false := by
  intro links
  induction links with
  | nil => intro seen it hit; simp [extractDOMLinks] at hit
  | cons l rest ih =>
    intro seen it hit
    simp only [extractDOMLinks] at hit
    split at hit
    · rename_i hcond
      split at hit
      · rcases List.mem_cons.mp hit with rfl | hmem
        · by_cases hsc : seen.contains (jsTrim l.text) = true
          · exfalso
            have hm := by simpa using hsc
            simp [hm] at hcond
          · simpa using hsc
        · have h2 := ih _ it hmem
          simp only [List.contains_cons, Bool.or_eq_false_iff] at h2
          exact h2.2
      · exact ih seen it hit
    · exact ih seen it hit

theorem extractDOMLinks_distinct :
    ∀ (links : List DomLink) (seen : List String),
      distinctNames (extractDOMLinks links seen) := by
  intro links
  induction links with
  | nil => intro seen; simp [extractDOMLinks, distinctNames]
  | cons l rest ih =>
    intro seen
    show List.Pairwise _ (extractDOMLinks (l :: rest) seen)
    simp only [extractDOMLinks]
    split
    · split
      · refine List.Pairwise.cons ?_ (ih _)
        intro b hb heq
        have hnm := extractDOMLinks_notMem _ _ b hb
        simp only [List.contains_cons, Bool.or_eq_false_iff] at hnm
        have hne : ¬ b.name = jsTrim l.text := by simpa using hnm.1
        exact hne (by simpa using heq.symm)
      · exact ih seen
    · exact ih seen

theorem extractDOMFallbackLinks_notMem :
    ∀ (links : List FallbackLink) (seen : List String),
      ∀ it ∈ extractDOMFallbackLinks links seen, seen.contains it.name = false := by
  intro links
  induction links with
  | nil => intro seen it hit; simp [extractDOMFallbackLinks] at hit
  | cons l rest ih =>
    intro seen it hit
    simp only [extractDOMFallbackLinks] at hit
    split at hit
    · rename_i hcond
      rcases List.mem_cons.mp hit with rfl | hmem
      · by_cases hsc : seen.contains (jsTrim l.text) = true
        · exfalso
          have hm := by simpa using hsc
          simp [hm] at hcond
        · simpa using hsc
      · have h2 := ih _ it hmem
        simp only [List.contains_cons, Bool.or_eq_false_iff] at h2
        exact h2.2
    · exact ih seen it hit

theorem extractDOMFallbackLinks_distinct :
    ∀ (links : List FallbackLink) (seen : List String),
      distinctNames (extractDOMFallbackLinks links seen) := by
  intro links
  induction links with
  | nil => intro seen; simp [extractDOMFallbackLinks, distinctNames]
  | cons l rest ih =>
    intro seen
    show List.Pairwise _ (extractDOMFallbackLinks (l :: rest) seen)
    simp only [extractDOMFallbackLinks]
    split
    · refine List.Pairwise.cons ?_ (ih _)
      intro b hb heq
      have hnm := extractDOMFallbackLinks_notMem _ _ b hb
      simp only [List.contains_cons, Bool.or_eq_false_iff] at hnm
      have hne : ¬ b.name = jsTrim l.text := by simpa using hnm.1
      exact hne (by simpa using heq.symm)
    · exact ih seen

theorem extractDOMTextElements_notMem :
    ∀ (els : List TextElement) (seen : List String),
      ∀ it ∈ extractDOMTextElements els seen, seen.contains it.name = false := by
  intro els
  induction els with
  | nil => intro seen it hit; simp [extractDOMTextElements] at hit
  | cons e rest ih =>
    intro seen it hit
    simp only [extractDOMTextElements] at hit
    split at hit
    · rename_i hcond
      split at hit
      · rcases List.mem_cons.mp hit with rfl | hmem
        · by_cases hsc : seen.contains (jsTrim e.text) = true
          · exfalso
            have hm := by simpa using hsc
            simp [hm] at hcond
          · simpa using hsc
        · have h2 := ih _ it hmem
          simp only [List.contains_cons, Bool.or_eq_false_iff] at h2
          exact h2.2
      · exact ih seen it hit
    · exact ih seen it hit

theorem extractDOMTextElements_distinct :
    ∀ (els : List TextElement) (seen : List String),
      distinctNames (extractDOMTextElements els seen) := by
  intro els
  induction els with
  | nil => intro seen; simp [extractDOMTextElements, distinctNames]
  | cons e rest ih =>
    intro seen
    show List.Pairwise _ (extractDOMTextElements (e :: rest) seen)
    simp only [extractDOMTextElements]
    split
    · split
      · refine List.Pairwise.cons ?_ (ih _)
        intro b hb heq
        have hnm := extractDOMTextElements_notMem _ _ b hb
        simp only [List.contains_cons, Bool.or_eq_false_iff] at hnm
        have hne : ¬ b.name = jsTrim e.text := by simpa using hnm.1
        exact hne (by simpa using heq.symm)
      · exact ih seen
    · exact ih seen

theorem extractReceiptLinks_notMem :
    ∀ (links : List ReceiptLink) (seen : List String),
      ∀ it ∈ extractReceiptLinks links seen, seen.contains it.name = false := by
  intro links
  induction links with
  | nil => intro seen it hit; simp [extractReceiptLinks] at hit
  | cons l rest ih =>
    intro seen it hit
    simp only [extractReceiptLinks] at hit
    split at hit
    · rename_i hcond
      rcases List.mem_cons.mp hit with rfl | hmem
      · by_cases hsc : seen.contains (jsTrim l.text) = true
        · exfalso
          have hm := by simpa using hsc
          simp [hm] at hcond
        · simpa using hsc
      · have h2 := ih _ it hmem
        simp only [List.contains_cons, Bool.or_eq_false_iff] at h2
        exact h2.2
    · exact ih seen it hit

theorem extractReceiptLinks_distinct :
    ∀ (links : List ReceiptLink) (seen : List String),
      distinctNames (extractReceiptLinks links seen) := by
  intro links
  induction links with
  | nil => intro seen; simp [extractReceiptLinks, distinctNames]
  | cons l rest ih =>
    intro seen
    show List.Pairwise _ (extractReceiptLinks (l :: rest) seen)
    simp only [extractReceiptLinks]
    split
    · refine List.Pairwise.cons ?_ (ih _)
      intro b hb heq
      have hnm := extractReceiptLinks_notMem _ _ b hb
      simp only [List.contains_cons, Bool.or_eq_false_iff] at hnm
      have hne : ¬ b.name = jsTrim l.text := by simpa using hnm.1
      exact hne (by simpa using heq.symm)
    · exact ih seen

theorem extractReceiptLines_notMem :
    ∀ (lns : List ReceiptLine) (seen : List String),
      ∀ it ∈ extractReceiptLines lns seen, seen.contains it.name = false := by
  intro lns
  induction lns with
  | nil => intro seen it hit; simp [extractReceiptLines] at hit
  | cons ln rest ih =>
    intro seen it hit
    simp only [extractReceiptLines] at hit
    split at hit
    · rename_i rawName pc qcap heqm
      split at hit
      · rename_i hcond
        rcases List.mem_cons.mp hit with rfl | hmem
        · by_cases hsc : seen.contains (jsTrim rawName) = true
          · exfalso
            have hm := by simpa using hsc
            simp [hm] at hcond
          · simpa using hsc
        · have h2 := ih _ it hmem
          simp only [List.contains_cons, Bool.or_eq_false_iff] at h2
          exact h2.2
      · exact ih seen it hit
    · exact ih seen it hit

theorem extractReceiptLines_distinct :
    ∀ (lns : List ReceiptLine) (seen : List String),
      distinctNames (extractReceiptLines lns seen) := by
  intro lns
  induction lns with
  | nil => intro seen; simp [extractReceiptLines, distinctNames]
  | cons ln rest ih =>
    intro seen
    show List.Pairwise _ (extractReceiptLines (ln :: rest) seen)
    simp only [extractReceiptLines]
    split
    · rename_i rawName pc qcap heqm
      split
      · refine List.Pairwise.cons ?_ (ih _)
        intro b hb heq
        have hnm := extractReceiptLines_notMem _ _ b hb
        simp only [List.contains_cons, Bool.or_eq_false_iff] at hnm
        have hne : ¬ b.name = jsTrim rawName := by simpa using hnm.1
        exact hne (by simpa using heq.symm)
      · exact ih seen
    · exact ih seen

theorem ndLineItemsGo_notMem :
    ∀ (lis : List NDLineItem) (seen : List String),
      ∀ it ∈ (ndLineItemsGo lis seen).1, seen.contains it.name = false := by
  intro lis
  induction lis with
  | nil => intro seen it hit; simp [ndLineItemsGo] at hit
  | cons li rest ih =>
    intro seen it hit
    simp only [ndLineItemsGo] at hit
    split at hit
    · exact ih seen it hit
    · rename_i hcond
      rcases List.mem_cons.mp hit with rfl | hmem
      · by_cases hsc : seen.contains li.name = true
        · have hm : li.name ∈ seen := by simpa using hsc
          exact absurd (by simp [hm]) hcond
        · simpa using hsc
      · have h2 := ih _ it hmem
        simp only [List.contains_cons, Bool.or_eq_false_iff] at h2
        exact h2.2

theorem ndLineItemsGo_distinct :
    ∀ (lis : List NDLineItem) (seen : List String),
      distinctNames (ndLineItemsGo lis seen).1 := by
  intro lis
  induction lis with
  | nil => intro seen; simp [ndLineItemsGo, distinctNames]
  | cons li rest ih =>
    intro seen
    show List.Pairwise _ (ndLineItemsGo (li :: rest) seen).1
    simp only [ndLineItemsGo]
    split
    · exact ih seen
    · refine List.Pairwise.cons ?_ (ih _)
      intro b hb heq
      have hnm := ndLineItemsGo_notMem _ _ b hb
      simp only [List.contains_cons, Bool.or_eq_false_iff] at hnm
      have hne : ¬ b.name = li.name := by simpa using hnm.1
      exact hne (by simpa using heq.symm)

theorem ndPathsGo_distinct :
    ∀ (paths : List (Option (List NDGroup))) (seen : List String),
      distinctNames (ndPathsGo paths seen).1 := by
  intro paths
  induction paths with
  | nil => intro seen; simp [ndPathsGo, distinctNames]
  | cons p rest ih =>
    intro seen
    match p with
    | none =>
      show distinctNames (ndPathsGo (none :: rest) seen).1
      simp only [ndPathsGo]
      exact ih seen
    | some gs =>
      show distinctNames (ndPathsGo (some gs :: rest) seen).1
      simp only [ndPathsGo]
      split
      · exact ndLineItemsGo_distinct _ _
      · exact ih _

theorem ndDirectGo_notMem :
    ∀ (its : List NDDirectItem) (seen : List String),
      ∀ it ∈ ndDirectGo its seen, seen.contains it.name = false := by
  intro its
  induction its with
  | nil => intro seen it hit; simp [ndDirectGo] at hit
  | cons d rest ih =>
    intro seen it hit
    simp only [ndDirectGo] at hit
    split at hit
    · exact ih seen it hit
    · rename_i hcond
      rcases List.mem_cons.mp hit with rfl | hmem
      · by_cases hsc : seen.contains d.name = true
        · have hm : d.name ∈ seen := by simpa using hsc
          exact absurd (by simp [hm]) hcond
        · simpa using hsc
      · have h2 := ih _ it hmem
        simp only [List.contains_cons, Bool.or_eq_false_iff] at h2
        exact h2.2

theorem ndDirectGo_distinct :
    ∀ (its : List NDDirectItem) (seen : List String),
      distinctNames (ndDirectGo its seen) := by
  intro its
  induction its with
  | nil => intro seen; simp [ndDirectGo, distinctNames]
  | cons d rest ih =>
    intro seen
    show List.Pairwise _ (ndDirectGo (d :: rest) seen)
    simp only [ndDirectGo]
    split
    · exact ih seen
    · refine List.Pairwise.cons ?_ (ih _)
      intro b hb heq
      have hnm := ndDirectGo_notMem _ _ b hb
      simp only [List.contains_cons, Bool.or_eq_false_iff] at hnm
      have hne : ¬ b.name = d.name := by simpa using hnm.1
      exact hne (by simpa using heq.symm)

theorem natOrElse_pos (a : Option Nat) (b : Nat) (hb : 1 ≤ b) : 1 ≤ natOrElse a b := by
  cases a with
  | none => simpa [natOrElse]
  | some n =>
    by_cases h : n = 0
    · simpa [natOrElse, h]
    · simp [natOrElse, h]
      omega

theorem domAscend_pos (fuel : Nat) (nodes : List DomNode) (cur : Option DomNode)
    (hn : ∀ nd ∈ nodes, nodeQtyPos nd) (hc : ∀ nd, cur = some nd → nodeQtyPos nd) :
    (∀ nd, (domAscend fuel nodes cur).1 = some nd → nodeQtyPos nd)
    ∧ 1 ≤ (domAscend fuel nodes cur).2.2 := by
  induction fuel generalizing nodes cur with
  | zero => exact ⟨hc, le_refl 1⟩
  | succ fuel ih =>
    cases nodes with
    | nil =>
      refine ⟨?_, le_refl 1⟩
      intro nd h
      exact Option.noConfusion h
    | cons nd rest =>
      show (∀ x, (domAscend (fuel + 1) (nd :: rest) cur).1 = some x → nodeQtyPos x)
        ∧ 1 ≤ (domAscend (fuel + 1) (nd :: rest) cur).2.2
      simp only [domAscend]
      split
      · constructor
        · intro x hx
          cases hx
          exact hn nd (List.mem_cons_self _ _)
        · cases hq : nd.innerQtyCap with
          | none => simp
          | some q =>
            simpa using hn nd (List.mem_cons_self _ _) q hq
      · exact ih rest (some nd)
          (fun x hx => hn x (List.mem_cons_of_mem _ hx))
          (fun x hx => by cases hx; exact hn nd (List.mem_cons_self _ _))

theorem domFallback_pos (cont : Option DomNode) (pc : Option PriceCap) (qty : Nat)
    (hc : ∀ nd, cont = some nd → nodeQtyPos nd) (hq : 1 ≤ qty) :
    1 ≤ (domFallback cont pc qty).2 := by
  unfold domFallback
  split
  · cases cont with
    | none => simpa using hq
    | some nd =>
      cases h : nd.innerQtyCap with
      | none => simpa [h] using hq
      | some q => simpa [h] using hc nd rfl q h
  · exact hq

theorem extractDOMLinks_qty_pos :
    ∀ (links : List DomLink) (seen : List String),
      (∀ l ∈ links, ∀ nd ∈ l.ancestors, nodeQtyPos nd) →
      ∀ it ∈ extractDOMLinks links seen, 1 ≤ it.quantity := by
  intro links
  induction links with
  | nil => intro seen _ it hit; simp [extractDOMLinks] at hit
  | cons l rest ih =>
    intro seen hpos it hit
    simp only [extractDOMLinks] at hit
    split at hit
    · split at hit
      · rcases List.mem_cons.mp hit with rfl | hmem
        · have h1 := domAscend_pos 20 l.ancestors none
            (fun nd hnd => hpos l (List.mem_cons_self _ _) nd hnd)
            (fun nd h => Option.noConfusion h)
          exact domFallback_pos _ _ _ h1.1 h1.2
        · exact ih _ (fun x hx => hpos x (List.mem_cons_of_mem _ hx)) it hmem
      · exact ih _ (fun x hx => hpos x (List.mem_cons_of_mem _ hx)) it hit
    · exact ih _ (fun x hx => hpos x (List.mem_cons_of_mem _ hx)) it hit

theorem extractDOMFallbackLinks_qty_pos :
    ∀ (links : List FallbackLink) (seen : List String),
      (∀ l ∈ links, ∀ nd, l.closest = some nd → nodeQtyPos nd) →
      ∀ it ∈ extractDOMFallbackLinks links seen, 1 ≤ it.quantity := by
  intro links
  induction links with
  | nil => intro seen _ it hit; simp [extractDOMFallbackLinks] at hit
  | cons l rest ih =>
    intro seen hpos it hit
    simp only [extractDOMFallbackLinks] at hit
    split at hit
    · rcases List.mem_cons.mp hit with rfl | hmem
      · show 1 ≤ (match l.closest with
          | some nd => match nd.innerQtyCap with | some q => q | none => 1
          | none => 1)
        cases hcl : l.closest with
        | none => simp [hcl]
        | some nd =>
          cases hq : nd.innerQtyCap with
          | none => simp [hcl, hq]
          | some q =>
            simpa [hcl, hq] using hpos l (List.mem_cons_self _ _) nd hcl q hq
      · exact ih _ (fun x hx => hpos x (List.mem_cons_of_mem _ hx)) it hmem
    · exact ih _ (fun x hx => hpos x (List.mem_cons_of_mem _ hx)) it hit

theorem extractDOMTextElements_qty_one :
    ∀ (els : List TextElement) (seen : List String),
      ∀ it ∈ extractDOMTextElements els seen, it.quantity = 1 := by
  intro els
  induction els with
  | nil => intro seen it hit; simp [extractDOMTextElements] at hit
  | cons e rest ih =>
    intro seen it hit
    simp only [extractDOMTextElements] at hit
    split at hit
    · split at hit
      · rcases List.mem_cons.mp hit with rfl | hmem
        · rfl
        · exact ih _ it hmem
      · exact ih _ it hit
    · exact ih _ it hit

theorem receiptAscend_pos (fuel : Nat) (nodes : List ReceiptNode)
    (pc : Option PriceCap) (q : Nat)
    (hn : ∀ nd ∈ nodes, ∀ n, nd.qtyCap = some n → 1 ≤ n) (hq : 1 ≤ q) :
    1 ≤ (receiptAscend fuel nodes pc q).2 := by
  induction fuel generalizing nodes pc q with
  | zero => exact hq
  | succ fuel ih =>
    cases nodes with
    | nil => exact hq
    | cons nd rest =>
      show 1 ≤ (receiptAscend (fuel + 1) (nd :: rest) pc q).2
      simp only [receiptAscend]
      have hq' : 1 ≤ (match nd.qtyCap with | some n => n | none => q) := by
        cases h : nd.qtyCap with
        | none => simpa [h] using hq
        | some n => simpa [h] using hn nd (List.mem_cons_self _ _) n h
      split
      · exact hq'
      · exact ih rest _ _ (fun x hx => hn x (List.mem_cons_of_mem _ hx)) hq'

theorem extractReceiptLinks_qty_pos :
    ∀ (links : List ReceiptLink) (seen : List String),
      (∀ l ∈ links, ∀ nd ∈ l.ancestors, ∀ n, nd.qtyCap = some n → 1 ≤ n) →
      ∀ it ∈ extractReceiptLinks links seen, 1 ≤ it.quantity := by
  intro links
  induction links with
  | nil => intro seen _ it hit; simp [extractReceiptLinks] at hit
  | cons l rest ih =>
    intro seen hpos it hit
    simp only [extractReceiptLinks] at hit
    split at hit
    · rcases List.mem_cons.mp hit with rfl | hmem
      · exact receiptAscend_pos 20 l.ancestors none 1
          (fun nd hnd => hpos l (List.mem_cons_self _ _) nd hnd) (le_refl 1)
      · exact ih _ (fun x hx => hpos x (List.mem_cons_of_mem _ hx)) it hmem
    · exact ih _ (fun x hx => hpos x (List.mem_cons_of_mem _ hx)) it hit

theorem extractReceiptLines_qty_pos :
    ∀ (lns : List ReceiptLine) (seen : List String),
      (∀ ln ∈ lns, ∀ s pc q, ln.lineMatch = some (s, pc, some q) → 1 ≤ q) →
      ∀ it ∈ extractReceiptLines lns seen, 1 ≤ it.quantity := by
  intro lns
  induction lns with
  | nil => intro seen _ it hit; simp [extractReceiptLines] at hit
  | cons ln rest ih =>
    intro seen hpos it hit
    simp only [extractReceiptLines] at hit
    split at hit
    · rename_i rawName pc qcap heqm
      split at hit
      · rcases List.mem_cons.mp hit with rfl | hmem
        · clear hit
          cases qcap with
          | none => exact le_refl 1
          | some q => exact hpos ln (List.mem_cons_self _ _) rawName pc q heqm
        · exact ih _ (fun x hx => hpos x (List.mem_cons_of_mem _ hx)) it hmem
      · exact ih _ (fun x hx => hpos x (List.mem_cons_of_mem _ hx)) it hit
    · exact ih _ (fun x hx => hpos x (List.mem_cons_of_mem _ hx)) it hit

theorem extractContainerGo_qty_pos :
    ∀ (images : List AltImage) (seen : List String),
      (∀ img ∈ images, ∀ s q, altQtySuffix (jsTrim img.alt) = some (s, q) → 1 ≤ q) →
      ∀ it ∈ extractContainerGo images seen, 1 ≤ it.quantity := by
  intro images
  induction images with
  | nil => intro seen _ it hit; simp [extractContainerGo] at hit
  | cons img rest ih =>
    intro seen hpos it hit
    simp only [extractContainerGo] at hit
    split at hit
    · exact ih _ (fun x hx => hpos x (List.mem_cons_of_mem _ hx)) it hit
    · split at hit
      · exact ih _ (fun x hx => hpos x (List.mem_cons_of_mem _ hx)) it hit
      · split at hit
        · rcases List.mem_cons.mp hit with rfl | hmem
          · show 1 ≤ altQuantity (jsTrim img.alt)
            unfold altQuantity
            cases h : altQtySuffix (jsTrim img.alt) with
            | none => simp [h]
            | some p =>
              obtain ⟨s, q⟩ := p
              simpa [h] using hpos img (List.mem_cons_self _ _) s q h
          · exact ih _ (fun x hx => hpos x (List.mem_cons_of_mem _ hx)) it hmem
        · exact ih _ (fun x hx => hpos x (List.mem_cons_of_mem _ hx)) it hit

theorem extractContainerGo_qty_default :
    ∀ (images : List AltImage) (seen : List String),
      (∀ img ∈ images, altQtySuffix (jsTrim img.alt) = none) →
      ∀ it ∈ extractContainerGo images seen, it.quantity = 1 := by
  intro images
  induction images with
  | nil => intro seen _ it hit; simp [extractContainerGo] at hit
  | cons img rest ih =>
    intro seen hnone it hit
    simp only [extractContainerGo] at hit
    split at hit
    · exact ih _ (fun x hx => hnone x (List.mem_cons_of_mem _ hx)) it hit
    · split at hit
      · exact ih _ (fun x hx => hnone x (List.mem_cons_of_mem _ hx)) it hit
      · split at hit
        · rcases List.mem_cons.mp hit with rfl | hmem
          · show altQuantity (jsTrim img.alt) = 1
            unfold altQuantity
            rw [hnone img (List.mem_cons_self _ _)]
          · exact ih _ (fun x hx => hnone x (List.mem_cons_of_mem _ hx)) it hmem
        · exact ih _ (fun x hx => hnone x (List.mem_cons_of_mem _ hx)) it hit

theorem ndLineItemsGo_qty_pos :
    ∀ (lis : List NDLineItem) (seen : List String),
      ∀ it ∈ (ndLineItemsGo lis seen).1, 1 ≤ it.quantity := by
  intro lis
  induction lis with
  | nil => intro seen it hit; simp [ndLineItemsGo] at hit
  | cons li rest ih =>
    intro seen it hit
    simp only [ndLineItemsGo] at hit
    split at hit
    · exact ih seen it hit
    · rcases List.mem_cons.mp hit with rfl | hmem
      · exact natOrElse_pos _ _ (natOrElse_pos _ _ (le_refl 1))
      · exact ih _ it hmem

theorem ndPathsGo_qty_pos :
    ∀ (paths : List (Option (List NDGroup))) (seen : List String),
      ∀ it ∈ (ndPathsGo paths seen).1, 1 ≤ it.quantity := by
  intro paths
  induction paths with
  | nil => intro seen it hit; simp [ndPathsGo] at hit
  | cons p rest ih =>
    intro seen it hit
    match p with
    | none =>
      rw [show ndPathsGo (none :: rest) seen = ndPathsGo rest seen from rfl] at hit
      exact ih seen it hit
    | some gs =>
      have hd : ndPathsGo (some gs :: rest) seen =
          (if 0 < (ndLineItemsGo (gs.flatMap (fun g => g.lineItems)) seen).1.length
           then ndLineItemsGo (gs.flatMap (fun g => g.lineItems)) seen
           else ndPathsGo rest (ndLineItemsGo (gs.flatMap (fun g => g.lineItems)) seen).2) := rfl
      rw [hd] at hit
      split at hit
      · exact ndLineItemsGo_qty_pos _ _ it hit
      · exact ih _ it hit

theorem ndDirectGo_qty_pos :
    ∀ (its : List NDDirectItem) (seen : List String),
      ∀ it ∈ ndDirectGo its seen, 1 ≤ it.quantity := by
  intro its
  induction its with
  | nil => intro seen it hit; simp [ndDirectGo] at hit
  | cons d rest ih =>
    intro seen it hit
    simp only [ndDirectGo] at hit
    split at hit
    · exact ih seen it hit
    · rcases List.mem_cons.mp hit with rfl | hmem
      · exact natOrElse_pos _ _ (le_refl 1)
      · exact ih _ it hmem

/-- C8 counterexample: the image-alt extractor emits an item with
quantity 0 for an alt text ending in `, quantity 0` (the `\d+` capture
accepts `0` and `parseInt` returns it), so "quantity is a positive
integer" fails; and it emits quantity 1 for an explicit `, quantity 1`
suffix even though a quantity pattern was found, so "equals 1 exactly
when no quantity pattern was found" fails in the other direction. -/
theorem itemQuantity_counterexample :
    (extractItemsFromOrderContainer [⟨"Some Product Name, quantity 0"⟩]).map
        (fun it => it.quantity) = [0]
    ∧ altQtySuffix "Other Product Name, quantity 1" = some ("Other Product Name", 1)
    ∧ (extractItemsFromOrderContainer [⟨"Other Product Name, quantity 1"⟩]).map
        (fun it => it.quantity) = [1] :=
  ⟨by decide, by decide, by decide⟩

/-- C8 amended: an emitted item's quantity is the parsed capture when a
quantity pattern was found and defaults to 1 otherwise; the code does
not itself enforce positivity, so quantities are ≥ 1 exactly on inputs
whose quantity captures are all ≥ 1 (and the structured-data strategy
is ≥ 1 unconditionally, because the JS `||` chain treats 0 as falsy);
when no quantity pattern occurs at all, every quantity is 1. -/
theorem itemQuantity_spec :
    (∀ (images : List AltImage),
       (∀ img ∈ images, ∀ s q, altQtySuffix (jsTrim img.alt) = some (s, q) → 1 ≤ q) →
       ∀ it ∈ extractItemsFromOrderContainer images, 1 ≤ it.quantity)
    ∧ (∀ (images : List AltImage),
       (∀ img ∈ images, altQtySuffix (jsTrim img.alt) = none) →
       ∀ it ∈ extractItemsFromOrderContainer images, it.quantity = 1)
    ∧ (∀ doc : Doc, docQtyCapsPos doc →
       ∀ it ∈ extractItemsFromDOM doc, 1 ≤ it.quantity)
    ∧ (∀ page : ReceiptPage, receiptQtyCapsPos page →
       ∀ it ∈ extractItemsFromReceipt page, 1 ≤ it.quantity)
    ∧ (∀ nd : NextData, ∀ it ∈ extractItemsFromNextData nd, 1 ≤ it.quantity) := by
  refine ⟨?_, ?_, ?_, ?_, ?_⟩
  · intro images hpos
    exact extractContainerGo_qty_pos images [] hpos
  · intro images hnone
    exact extractContainerGo_qty_default images [] hnone
  · intro doc hdoc it hit
    rw [show extractItemsFromDOM doc =
        (if (if (extractDOMLinks doc.productLinks []).length = 0
             then extractDOMFallbackLinks doc.fallbackLinks []
             else extractDOMLinks doc.productLinks []).length = 0
         then extractDOMTextElements doc.textElements []
         else if (extractDOMLinks doc.productLinks []).length = 0
              then extractDOMFallbackLinks doc.fallbackLinks []
              else extractDOMLinks doc.productLinks []) from rfl] at hit
    split at hit
    · split at hit
      · have h1 := extractDOMTextElements_qty_one doc.textElements [] it hit
        omega
      · exact extractDOMFallbackLinks_qty_pos _ _ hdoc.2 it hit
    · exact extractDOMLinks_qty_pos _ _ hdoc.1 it hit
  · intro page hpage it hit
    rw [show extractItemsFromReceipt page =
        (if (extractReceiptLinks page.productLinks []).length = 0
         then extractReceiptLines page.lines []
         else extractReceiptLinks page.productLinks []) from rfl] at hit
    split at hit
    · exact extractReceiptLines_qty_pos _ _ hpage.2 it hit
    · exact extractReceiptLinks_qty_pos _ _ hpage.1 it hit
  · intro nd it hit
    rw [show extractItemsFromNextData nd =
        (if (ndPathsGo nd.groupPaths []).1.length = 0
         then ndDirectGo nd.directItems (ndPathsGo nd.groupPaths []).2
         else (ndPathsGo nd.groupPaths []).1) from rfl] at hit
    split at hit
    · exact ndDirectGo_qty_pos _ _ it hit
    · exact ndPathsGo_qty_pos _ _ it hit

/-- Witness for the amended C8 at concrete inputs: a positive capture
yields that capture, and a suffix-free alt text yields the default 1. -/
theorem itemQuantity_spec_witness :
    (∀ it ∈ extractItemsFromOrderContainer [⟨"Great Value Paper Towels, quantity 2"⟩],
       1 ≤ it.quantity)
    ∧ (∀ it ∈ extractItemsFromOrderContainer [⟨"Great Value Paper Towels"⟩],
       it.quantity = 1) :=
  ⟨itemQuantity_spec.1 [⟨"Great Value Paper Towels, quantity 2"⟩]
     (by
       intro img himg s q h
       have himg2 : img = ⟨"Great Value Paper Towels, quantity 2"⟩ := by
         simpa using himg
       subst himg2
       have hv : altQtySuffix (jsTrim "Great Value Paper Towels, quantity 2")
           = some ("Great Value Paper Towels", 2) := by decide
       rw [hv] at h
       have h2 := Option.some.inj h
       have hq : 2 = q := congrArg Prod.snd h2
       omega),
   itemQuantity_spec.2.1 [⟨"Great Value Paper Towels"⟩] (by decide)⟩

/-- C4: a single pass of any one item-extraction strategy emits no two
items with the identical (case-sensitive) name, for the DOM-link
extractor, the structured-data extractor, the image-alt-text
extractor, and the receipt extractor alike. -/
theorem itemExtraction_names_unique :
    (∀ doc : Doc, distinctNames (extractItemsFromDOM doc))
    ∧ (∀ nd : NextData, distinctNames (extractItemsFromNextData nd))
    ∧ (∀ images : List AltImage, distinctNames (extractItemsFromOrderContainer images))
    ∧ (∀ page : ReceiptPage, distinctNames (extractItemsFromReceipt page)) := by
  refine ⟨?_, ?_, ?_, ?_⟩
  · intro doc
    show distinctNames (extractItemsFromDOM doc)
    simp only [extractItemsFromDOM]
    split
    · split
      · exact extractDOMTextElements_distinct _ _
      · exact extractDOMFallbackLinks_distinct _ _
    · exact extractDOMLinks_distinct _ _
  · intro nd
    show distinctNames (extractItemsFromNextData nd)
    simp only [extractItemsFromNextData]
    split
    · exact ndDirectGo_distinct _ _
    · exact ndPathsGo_distinct _ _
  · intro images
    exact extractContainerGo_distinct _ _
  · intro page
    show distinctNames (extractItemsFromReceipt page)
    simp only [extractItemsFromReceipt]
    split
    · exact extractReceiptLines_distinct _ _
    · exact extractReceiptLinks_distinct _ _

theorem doubleQuotes_eq_nil_iff (s : List Char) : doubleQuotes s = [] ↔ s = [] := by
  cases s with
  | nil => simp [doubleQuotes]
  | cons c cs =>
    simp only [doubleQuotes]
    constructor
    · intro h
      by_cases hc : c = '"' <;> simp [hc] at h
    · intro h
      exact absurd h (List.cons_ne_nil _ _)

theorem collapseQuotes_doubleQuotes (s : List Char) :
    collapseQuotes (doubleQuotes s) = s := by
  induction s with
  | nil => rfl
  | cons c cs ih =>
    by_cases hc : c = '"'
    · subst hc
      have hdq : doubleQuotes ('"' :: cs) = '"' :: '"' :: doubleQuotes cs := by
        simp [doubleQuotes]
      rw [hdq]
      cases h : doubleQuotes cs with
      | nil =>
        have : cs = [] := (doubleQuotes_eq_nil_iff cs).mp h
        subst this
        rfl
      | cons b bs =>
        have hstep : collapseQuotes ('"' :: '"' :: b :: bs) = '"' :: collapseQuotes (b :: bs) := by
          simp [collapseQuotes]
        rw [hstep, ← h, ih]
    · simp only [doubleQuotes, if_neg hc]
      cases h : doubleQuotes cs with
      | nil =>
        have hcs : cs = [] := (doubleQuotes_eq_nil_iff cs).mp h
        subst hcs
        rfl
      | cons b bs =>
        have hstep : collapseQuotes (c :: b :: bs) = c :: collapseQuotes (b :: bs) := by
          simp [collapseQuotes, hc]
        rw [hstep, ← h, ih]

theorem doubleQuotes_length (s : List Char) : s.length ≤ (doubleQuotes s).length := by
  induction s with
  | nil => simp [doubleQuotes]
  | cons c cs ih =>
    by_cases hc : c = '"' <;> simp [doubleQuotes, hc] <;> omega

theorem quoteWrap_ne_self (s : List Char) : quoteWrap s ≠ s := by
  intro h
  have h1 : (quoteWrap s).length = (doubleQuotes s).length + 2 := by
    simp [quoteWrap]
  have h2 : s.length ≤ (doubleQuotes s).length := doubleQuotes_length s
  have h3 : (quoteWrap s).length = s.length := by rw [h]
  omega

theorem unescapeField_quoteWrap (s : List Char) :
    unescapeField (quoteWrap s) = s := by
  unfold unescapeField quoteWrap
  rw [List.drop_one]
  simp only [List.tail_cons]
  rw [List.dropLast_concat]
  exact collapseQuotes_doubleQuotes s

theorem detailedOrderRows_length (o : Order) :
    (detailedOrderRows o).length = max 1 o.items.length := by
  unfold detailedOrderRows
  by_cases h : 0 < o.items.length
  · rw [if_pos h]
    simp [Nat.max_eq_right h]
  · rw [if_neg h]
    have : o.items.length = 0 := by omega
    simp [this]

/-- C1: in detailed mode, `generateCSV` emits exactly one header row
plus `sum over orders of max(1, items.length)` data rows, and every
order with an empty item list contributes exactly one row whose
`Item Name` cell (index 3) is the literal `No items found` and whose
`Item Price` and `Quantity` cells (indices 4 and 5) are empty. -/
theorem generateCSV_detailed_rows (orders : List Order) :
    (csvRows true orders).length
      = 1 + (orders.map (fun o => max 1 o.items.length)).sum
    ∧ ∀ o ∈ orders, o.items = [] →
        (detailedOrderRows o).length = 1
        ∧ ∀ r ∈ detailedOrderRows o,
            r.get? 3 = some "No items found"
            ∧ r.get? 4 = some ""
            ∧ r.get? 5 = some "" := by
  constructor
  · have hlen : ∀ os : List Order,
        (os.flatMap detailedOrderRows).length
          = (os.map (fun o => max 1 o.items.length)).sum := by
      intro os
      induction os with
      | nil => rfl
      | cons o os ih =>
        simp [List.flatMap_cons, List.length_append, detailedOrderRows_length, ih]
    have hdef : csvRows true orders = detailedHeader :: orders.flatMap detailedOrderRows := rfl
    rw [hdef, List.length_cons, hlen]
    omega
  · intro o _ hempty
    have hrows : detailedOrderRows o = [noItemsRow o] := by
      unfold detailedOrderRows
      rw [hempty]
      rfl
    refine ⟨by rw [hrows]; rfl, ?_⟩
    intro r hr
    rw [hrows] at hr
    rcases List.mem_singleton.mp hr with rfl
    exact ⟨rfl, rfl, rfl⟩

/-- Witness for C1 at a concrete one-order input. -/
theorem generateCSV_detailed_rows_witness :
    (csvRows true [sampleEmptyOrder]).length
      = 1 + ([sampleEmptyOrder].map (fun o => max 1 o.items.length)).sum
    ∧ ∀ r ∈ detailedOrderRows sampleEmptyOrder,
        r.get? 3 = some "No items found"
        ∧ r.get? 4 = some ""
        ∧ r.get? 5 = some "" :=
  ⟨(generateCSV_detailed_rows [sampleEmptyOrder]).1,
   ((generateCSV_detailed_rows [sampleEmptyOrder]).2 sampleEmptyOrder
      (List.mem_singleton.mpr rfl) rfl).2⟩

/-- C2: `escapeCSV` returns the double-quoted form with doubled
interior quotes exactly when the input contains a comma, a double
quote, or a newline, and returns the input unchanged otherwise;
for every input that contains one of those characters, stripping the
outer quotes and collapsing doubled quotes recovers the input. -/
theorem escapeCSV_spec (s : List Char) :
    (needsEscape s = true ↔ (',' ∈ s ∨ '"' ∈ s ∨ '\n' ∈ s))
    ∧ (escapeCSVChars s = quoteWrap s ↔ needsEscape s = true)
    ∧ (needsEscape s = false → escapeCSVChars s = s)
    ∧ (needsEscape s = true → unescapeField (escapeCSVChars s) = s) := by
  refine ⟨?_, ⟨?_, ?_⟩, ?_, ?_⟩
  · simp [needsEscape, or_assoc]
  · intro h
    by_cases hn : needsEscape s = true
    · exact hn
    · exfalso
      have hs : escapeCSVChars s = s := by
        unfold escapeCSVChars
        rw [if_neg hn]
      exact quoteWrap_ne_self s (by rw [← h, hs])
  · intro h
    unfold escapeCSVChars
    rw [if_pos h]
  · intro h
    unfold escapeCSVChars
    rw [if_neg (by simp [h])]
  · intro h
    unfold escapeCSVChars
    rw [if_pos h]
    exact unescapeField_quoteWrap s

/-- C10: in both CSV layouts the `Order Number` cell holds the escaped
`orderNumber` when that field is present and non-empty, and the
escaped `orderId` otherwise; the record built by the fetch-failure
path carries no `orderNumber` at all (and keeps the requested
`orderId`), so it is serialized with its `orderId`. -/
theorem orderNumber_column_spec :
    (∀ o : Order, ∀ num, o.orderNumber = some num → num ≠ "" →
       (∀ r ∈ detailedOrderRows o, r.get? 0 = some (escapeCSVStr num))
       ∧ (summaryRow o).get? 0 = some (escapeCSVStr num))
    ∧ (∀ o : Order, (o.orderNumber = none ∨ o.orderNumber = some "") →
       (∀ r ∈ detailedOrderRows o, r.get? 0 = some (escapeCSVStr o.orderId))
       ∧ (summaryRow o).get? 0 = some (escapeCSVStr o.orderId))
    ∧ (∀ env info msg, fetchOrderDetailsBody env info = .error msg →
       (fetchOrderDetails env info).orderNumber = none
       ∧ (fetchOrderDetails env info).orderId = info.orderId) := by
  have hcell : ∀ o : Order, (∀ r ∈ detailedOrderRows o,
      r.get? 0 = some (escapeCSVStr (orderNumberCell o)))
      ∧ (summaryRow o).get? 0 = some (escapeCSVStr (orderNumberCell o)) := by
    intro o
    refine ⟨?_, rfl⟩
    intro r hr
    unfold detailedOrderRows at hr
    split at hr
    · rcases List.mem_map.mp hr with ⟨it, -, rfl⟩
      rfl
    · rcases List.mem_singleton.mp hr with rfl
      rfl
  refine ⟨?_, ?_, ?_⟩
  · intro o num hnum hne
    have hc : orderNumberCell o = num := by
      simp [orderNumberCell, hnum, strTruthy, hne]
    rw [← hc]
    exact hcell o
  · intro o hnum
    have hc : orderNumberCell o = o.orderId := by
      rcases hnum with h | h <;> simp [orderNumberCell, h, strTruthy]
    rw [← hc]
    exact hcell o
  · intro env info msg h
    unfold fetchOrderDetails
    rw [h]
    exact ⟨rfl, rfl⟩

/-- Witness for C10: a present non-empty order number is used, and a
concrete failing fetch yields a record without one. -/
theorem orderNumber_column_witness :
    (∀ r ∈ detailedOrderRows sampleEmptyOrder,
       r.get? 0 = some (escapeCSVStr "200000001"))
    ∧ (fetchOrderDetails failFetchEnv sampleLink).orderNumber = none :=
  ⟨(orderNumber_column_spec.1 sampleEmptyOrder "200000001" rfl (by decide)).1,
   (orderNumber_column_spec.2.2 failFetchEnv sampleLink "network down" rfl).1⟩

/-- C6: a network or parse failure inside `fetchOrderDetails` is
returned — not thrown — as an order record with
`status = "Error fetching"`, `items = []` and the failure message in
`error`; and the fallback loop of `exportOrders` performs exactly one
fetch per remaining link and appends every record with a non-empty id,
so one failing order never aborts the run. -/
theorem fetchFailure_spec :
    (∀ env info msg, fetchOrderDetailsBody env info = .error msg →
       fetchOrderDetails env info =
         { orderId := info.orderId, orderNumber := none,
           orderType := if info.isStore then .store else .online,
           orderDate := "Unknown", status := "Error fetching", items := [],
           subtotal := "", tax := "", total := "", associateDiscount := "",
           driverTip := "", deliveryFee := "", expressFee := "",
           storeLocation := ⟨"", ""⟩, error := some msg })
    ∧ (∀ (env : Env) (links : List OrderLink) (acc : List Order) (st : RunState),
       (∀ n, env.sendProgressFail n = none) →
       ∃ st', fallbackFetchLoop env links acc st =
           .ok (acc ++ (links.map (fetchOrderDetails env.fetch)).filter
                  (fun o => strTruthy o.orderId), st')
         ∧ st'.orderDetailsFetches = st.orderDetailsFetches + links.length) := by
  constructor
  · intro env info msg h
    unfold fetchOrderDetails
    rw [h]
    rfl
  · intro env links
    have hcons : ∀ (info : OrderLink) (rest : List OrderLink) (acc : List Order)
        (st : RunState), (∀ n, env.sendProgressFail n = none) →
        fallbackFetchLoop env (info :: rest) acc st =
          fallbackFetchLoop env rest
            (if strTruthy (fetchOrderDetails env.fetch info).orderId
             then acc ++ [fetchOrderDetails env.fetch info] else acc)
            { st with progressCalls := st.progressCalls + 1,
                      orderDetailsFetches := st.orderDetailsFetches + 1 } := by
      intro info rest acc st hp
      simp [fallbackFetchLoop, progress, hp]
    induction links with
    | nil =>
      intro acc st _
      exact ⟨st, by simp [fallbackFetchLoop], by simp⟩
    | cons info rest ih =>
      intro acc st hp
      obtain ⟨st', hloop, hcount⟩ := ih
        (if strTruthy (fetchOrderDetails env.fetch info).orderId
         then acc ++ [fetchOrderDetails env.fetch info] else acc)
        { st with progressCalls := st.progressCalls + 1,
                  orderDetailsFetches := st.orderDetailsFetches + 1 } hp
      refine ⟨st', ?_, ?_⟩
      · rw [hcons info rest acc st hp, hloop]
        by_cases hid : strTruthy (fetchOrderDetails env.fetch info).orderId
        · simp [hid, List.filter_cons]
        · simp [hid, List.filter_cons]
      · have hcount' : st'.orderDetailsFetches = st.orderDetailsFetches + 1 + rest.length :=
          hcount
        simp only [List.length_cons]
        omega

/-- Witness for C6: the failing fetch environment yields the error
record for a concrete order, and a one-link fallback loop appends it
and counts one fetch. -/
theorem fetchFailure_spec_witness :
    fetchOrderDetails failFetchEnv sampleLink =
      { orderId := "555001", orderNumber := none, orderType := .online,
        orderDate := "Unknown", status := "Error fetching", items := [],
        subtotal := "", tax := "", total := "", associateDiscount := "",
        driverTip := "", deliveryFee := "", expressFee := "",
        storeLocation := ⟨"", ""⟩, error := some "network down" }
    ∧ ∃ st', fallbackFetchLoop baseEnv [sampleLink] [] initRunState =
        .ok (([sampleLink].map (fetchOrderDetails baseEnv.fetch)).filter
               (fun o => strTruthy o.orderId), st')
        ∧ st'.orderDetailsFetches = 1 :=
  ⟨fetchFailure_spec.1 failFetchEnv sampleLink "network down" rfl,
   by
     obtain ⟨st', h1, h2⟩ :=
       fetchFailure_spec.2 baseEnv [sampleLink] [] initRunState (fun _ => rfl)
     exact ⟨st', by simpa using h1, by simpa using h2⟩⟩

/-- C7: when an exception escapes the orchestration loop (the `try`
body fails), `exportOrders` returns `success = false` with the error
message and nothing else: no `csv`, no `orderCount`, no `itemCount` —
every order accumulated before the exception is absent from the
result. -/
theorem exportFailure_spec (env : Env) (opts : ExportOptions) (pages : List Page)
    (msg : String) (h : exportOrdersBody env opts pages = .error msg) :
    exportOrders env opts pages =
      { success := false, csv := none, orderCount := none, itemCount := none,
        error := some msg } := by
  unfold exportOrders
  rw [h]

/-- Witness for C7: a run whose progress channel dies at the start of
its second page — after the first page's order was accumulated —
returns the bare failure result; the same pages under a healthy
channel accumulate two orders. -/
theorem exportFailure_spec_witness :
    exportOrdersBody failingProgressEnv allDatesOptions failPages =
      .error "Extension context invalidated"
    ∧ exportOrders failingProgressEnv allDatesOptions failPages =
      { success := false, csv := none, orderCount := none, itemCount := none,
        error := some "Extension context invalidated" }
    ∧ (runAccum baseEnv allDatesOptions failPages).orders.length = 2 :=
  ⟨rfl,
   exportFailure_spec failingProgressEnv allDatesOptions failPages
     "Extension context invalidated" rfl,
   by decide⟩

theorem collectPrimary_notMem :
    ∀ (env : DateEnv) (cs : List ListContainer) (seen : List String),
      ∀ o ∈ collectPrimary env cs seen, seen.contains o.orderId = false := by
  intro env cs
  induction cs with
  | nil => intro seen o ho; simp [collectPrimary] at ho
  | cons c rest ih =>
    intro seen o ho
    simp only [collectPrimary] at ho
    split at ho
    · exact ih seen o ho
    · rename_i oid hoid
      split at ho
      · exact ih seen o ho
      · rename_i hseen
        rcases List.mem_cons.mp ho with rfl | hmem
        · simpa [buildListOrder] using hseen
        · have h2 := ih _ o hmem
          simp only [List.contains_cons, Bool.or_eq_false_iff] at h2
          exact h2.2

theorem collectPrimary_distinct :
    ∀ (env : DateEnv) (cs : List ListContainer) (seen : List String),
      (collectPrimary env cs seen).Pairwise (fun a b => a.orderId ≠ b.orderId) := by
  intro env cs
  induction cs with
  | nil => intro seen; simp [collectPrimary]
  | cons c rest ih =>
    intro seen
    simp only [collectPrimary]
    split
    · exact ih seen
    · rename_i oid hoid
      split
      · exact ih seen
      · refine List.Pairwise.cons ?_ (ih _)
        intro b hb heq
        have hnm := collectPrimary_notMem _ _ _ b hb
        simp only [List.contains_cons, Bool.or_eq_false_iff] at hnm
        have hne : ¬ b.orderId = oid := by simpa using hnm.1
        exact hne (by simpa [buildListOrder] using heq.symm)

theorem collectFallback_notMem :
    ∀ (env : DateEnv) (ls : List ReturnLink) (seen : List String),
      ∀ o ∈ collectFallback env ls seen, seen.contains o.orderId = false := by
  intro env ls
  induction ls with
  | nil => intro seen o ho; simp [collectFallback] at ho
  | cons l rest ih =>
    intro seen o ho
    simp only [collectFallback] at ho
    split at ho
    · exact ih seen o ho
    · rename_i oid hoid
      split at ho
      · exact ih seen o ho
      · rename_i hseen
        rcases List.mem_cons.mp ho with rfl | hmem
        · simpa [buildFallbackOrder] using hseen
        · have h2 := ih _ o hmem
          simp only [List.contains_cons, Bool.or_eq_false_iff] at h2
          exact h2.2

theorem collectFallback_distinct :
    ∀ (env : DateEnv) (ls : List ReturnLink) (seen : List String),
      (collectFallback env ls seen).Pairwise (fun a b => a.orderId ≠ b.orderId) := by
  intro env ls
  induction ls with
  | nil => intro seen; simp [collectFallback]
  | cons l rest ih =>
    intro seen
    simp only [collectFallback]
    split
    · exact ih seen
    · rename_i oid hoid
      split
      · exact ih seen
      · refine List.Pairwise.cons ?_ (ih _)
        intro b hb heq
        have hnm := collectFallback_notMem _ _ _ b hb
        simp only [List.contains_cons, Bool.or_eq_false_iff] at hnm
        have hne : ¬ b.orderId = oid := by simpa using hnm.1
        exact hne (by simpa [buildFallbackOrder] using heq.symm)

theorem collectPrimary_dup_noop :
    ∀ (env : DateEnv) (cs : List ListContainer) (seen : List String)
      (c : ListContainer) (oid : String),
      c.linkOrderId = some oid →
      (oid ∈ (collectPrimary env cs seen).map (fun o => o.orderId)
        ∨ seen.contains oid = true) →
      collectPrimary env (cs ++ [c]) seen = collectPrimary env cs seen := by
  intro env cs
  induction cs with
  | nil =>
    intro seen c oid hc hmem
    rcases hmem with hmem | hseen
    · simp [collectPrimary] at hmem
    · show collectPrimary env [c] seen = collectPrimary env [] seen
      have hm : oid ∈ seen := by simpa using hseen
      simp [collectPrimary, hc, hm]
  | cons c0 rest ih =>
    intro seen c oid hc hmem
    cases h0 : c0.linkOrderId with
    | none =>
      have hL : collectPrimary env ((c0 :: rest) ++ [c]) seen
          = collectPrimary env (rest ++ [c]) seen := by
        simp [collectPrimary, h0]
      have hR : collectPrimary env (c0 :: rest) seen
          = collectPrimary env rest seen := by
        simp [collectPrimary, h0]
      rw [hL, hR]
      rw [hR] at hmem
      exact ih seen c oid hc hmem
    | some oid0 =>
      by_cases hs : seen.contains oid0 = true
      · have hm0 : oid0 ∈ seen := by simpa using hs
        have hL : collectPrimary env ((c0 :: rest) ++ [c]) seen
            = collectPrimary env (rest ++ [c]) seen := by
          simp [collectPrimary, h0, hm0]
        have hR : collectPrimary env (c0 :: rest) seen
            = collectPrimary env rest seen := by
          simp [collectPrimary, h0, hm0]
        rw [hL, hR]
        rw [hR] at hmem
        exact ih seen c oid hc hmem
      · have hm0 : oid0 ∉ seen := by simpa using hs
        have hL : collectPrimary env ((c0 :: rest) ++ [c]) seen
            = buildListOrder env oid0 c0
                :: collectPrimary env (rest ++ [c]) (oid0 :: seen) := by
          simp [collectPrimary, h0, hm0]
        have hR : collectPrimary env (c0 :: rest) seen
            = buildListOrder env oid0 c0
                :: collectPrimary env rest (oid0 :: seen) := by
          simp [collectPrimary, h0, hm0]
        rw [hL, hR]
        congr 1
        apply ih (oid0 :: seen) c oid hc
        rw [hR] at hmem
        rcases hmem with hmem | hseen
        · rcases List.mem_map.mp hmem with ⟨o, ho, rfl⟩
          rcases List.mem_cons.mp ho with rfl | ho2
          · right
            simp [buildListOrder]
          · left
            exact List.mem_map.mpr ⟨o, ho2, rfl⟩
        · right
          have hmm : oid ∈ seen := by simpa using hseen
          simp [hmm]

/-- C3 amended: `orderId` is unique within a single list-page
collection pass (either branch of `extractOrderDataFromListPage`), and
a later container bearing an already-collected id contributes nothing
(first-seen wins).  The run-level accumulator applies no further
deduplication, so the same id can recur across pages. -/
theorem listPage_dedup_spec :
    (∀ (env : DateEnv) (p : ListPage),
       (extractOrderDataFromListPage env p).Pairwise
         (fun a b => a.orderId ≠ b.orderId))
    ∧ (∀ (env : DateEnv) (cs : List ListContainer) (c : ListContainer) (oid : String),
       c.linkOrderId = some oid →
       oid ∈ (collectPrimary env cs []).map (fun o => o.orderId) →
       collectPrimary env (cs ++ [c]) [] = collectPrimary env cs []) := by
  constructor
  · intro env p
    show (extractOrderDataFromListPage env p).Pairwise _
    simp only [extractOrderDataFromListPage]
    split
    · exact collectFallback_distinct _ _ _
    · exact collectPrimary_distinct _ _ _
  · intro env cs c oid hc hmem
    exact collectPrimary_dup_noop env cs [] c oid hc (Or.inl hmem)

/-- Witness for the amended C3: appending a duplicate container to a
concrete page pass leaves the collection unchanged. -/
theorem listPage_dedup_spec_witness :
    collectPrimary baseEnv.dateEnv
        ([simpleContainer "123"] ++ [simpleContainer "123"]) []
      = collectPrimary baseEnv.dateEnv [simpleContainer "123"] [] :=
  listPage_dedup_spec.2 baseEnv.dateEnv [simpleContainer "123"]
    (simpleContainer "123") "123" rfl (by decide)

/-- C3 counterexample: the accumulated sequence of one export run is
not deduplicated across pages — two pages exposing the same order id
produce two accumulated records with that id. -/
theorem exportRun_duplicate_ids_counterexample :
    ((runAccum baseEnv allDatesOptions dupPages).orders.map (fun o => o.orderId))
      = ["123", "123"]
    ∧ ¬ ((runAccum baseEnv allDatesOptions dupPages).orders.Pairwise
          (fun a b => a.orderId ≠ b.orderId)) := by
  have h1 : ((runAccum baseEnv allDatesOptions dupPages).orders.map
      (fun o => o.orderId)) = ["123", "123"] := by decide
  refine ⟨h1, ?_⟩
  intro hpair
  have h2 := List.pairwise_map.mpr hpair
  rw [h1] at h2
  simp at h2

theorem progress_ok (env : Env) (st : RunState)
    (hp : env.sendProgressFail = fun _ => none) :
    progress env st = .ok { st with progressCalls := st.progressCalls + 1 } := by
  simp [progress, hp]

theorem processOrder_noFetch_eq (env : Env) (opts : ExportOptions)
    (cutoff : Option Int) (st : RunState) (o : Order)
    (hp : env.sendProgressFail = fun _ => none)
    (hf : opts.fetchItemPrices = false) :
    processOrder env opts cutoff st o =
      .ok { st with
            progressCalls := st.progressCalls + 1,
            processedOrders := st.processedOrders + 1,
            reachedCutoff := (dateCheckOf env cutoff st o).2,
            orders := if typeFilterOf opts o (dateCheckOf env cutoff st o).1 = true
                      then st.orders ++ [o] else st.orders } := by
  simp [processOrder, progress_ok env st hp, hf, dateCheckOf]

/-- C5: with a numeric `dateRange`, (a) an order whose parsed date is
strictly older than `now − dateRange` is not appended and raises the
cutoff flag; (b) an order whose parsed date is within range is
appended (with the `all` type filter) and leaves the flag unchanged;
(c) the per-order loop still processes every order of the page and
only ever appends to the accumulator; (d) once the flag is set by the
page, no further page is visited. -/
theorem dateCutoff_spec (env : Env) (opts : ExportOptions) (d : Int)
    (hp : env.sendProgressFail = fun _ => none)
    (hf : opts.fetchItemPrices = false)
    (hd : opts.dateRange = some d) :
    (∀ (st : RunState) (o : Order) (t : Int),
       o.orderDate ≠ "Unknown" → env.parseDate o.orderDate = some t →
       t < env.now - d →
       processOrder env opts (cutoffOf env opts) st o =
         .ok { st with progressCalls := st.progressCalls + 1,
                       processedOrders := st.processedOrders + 1,
                       reachedCutoff := true })
    ∧ (∀ (st : RunState) (o : Order) (t : Int),
       opts.orderTypeFilter = "all" →
       env.parseDate o.orderDate = some t → ¬ t < env.now - d →
       processOrder env opts (cutoffOf env opts) st o =
         .ok { st with progressCalls := st.progressCalls + 1,
                       processedOrders := st.processedOrders + 1,
                       orders := st.orders ++ [o] })
    ∧ (∀ (orders : List Order) (st st' : RunState),
       processOrdersLoop env opts (cutoffOf env opts) st orders = .ok st' →
       st'.processedOrders = st.processedOrders + orders.length
       ∧ ∃ tail, st'.orders = st.orders ++ tail)
    ∧ (∀ (st st' : RunState) (p : Page) (rest : List Page),
       processPage env opts (cutoffOf env opts) st p = .ok st' →
       st'.reachedCutoff = true →
       runPages env opts (cutoffOf env opts) st (p :: rest) = .ok st') := by
  have hco : cutoffOf env opts = some (env.now - d) := by simp [cutoffOf, hd]
  refine ⟨?_, ?_, ?_, ?_⟩
  · intro st o t hu hparse hlt
    rw [processOrder_noFetch_eq env opts _ st o hp hf]
    have hdc : dateCheckOf env (cutoffOf env opts) st o = (false, true) := by
      rw [hco]
      simp [dateCheckOf, hu, hparse, hlt]
    rw [hdc]
    simp [typeFilterOf]
  · intro st o t hall hparse hge
    rw [processOrder_noFetch_eq env opts _ st o hp hf]
    have hdc : dateCheckOf env (cutoffOf env opts) st o = (true, st.reachedCutoff) := by
      rw [hco]
      by_cases hu : o.orderDate = "Unknown" <;>
        simp [dateCheckOf, hu, hparse, hge]
    rw [hdc]
    simp [typeFilterOf, hall]
  · intro orders
    induction orders with
    | nil =>
      intro st st' h
      have h2 : st' = st := by
        simpa [processOrdersLoop] using h.symm
      subst h2
      exact ⟨by simp, [], by simp⟩
    | cons o rest ih =>
      intro st st' h
      rw [show processOrdersLoop env opts (cutoffOf env opts) st (o :: rest) =
            (match processOrder env opts (cutoffOf env opts) st o with
             | .error m => .error m
             | .ok st => processOrdersLoop env opts (cutoffOf env opts) st rest)
          from rfl,
          processOrder_noFetch_eq env opts _ st o hp hf] at h
      obtain ⟨h1, tail, ht⟩ := ih _ _ h
      constructor
      · have h1' : st'.processedOrders = st.processedOrders + 1 + rest.length := h1
        simp only [List.length_cons]
        omega
      · by_cases hb : typeFilterOf opts o (dateCheckOf env (cutoffOf env opts) st o).1 = true
        · rw [if_pos hb] at ht
          exact ⟨o :: tail, by simpa [List.append_assoc] using ht⟩
        · rw [if_neg hb] at ht
          exact ⟨tail, ht⟩
  · intro st st' p rest hpp hrc
    rw [show runPages env opts (cutoffOf env opts) st (p :: rest) =
          (match processPage env opts (cutoffOf env opts) st p with
           | .error m => .error m
           | .ok st =>
             if opts.allPages = true ∧ st.reachedCutoff = false
                 ∧ p.hasNextPage = true ∧ rest.isEmpty = false then
               match progress env st with
               | .error m => .error m
               | .ok st => runPages env opts (cutoffOf env opts) st rest
             else .ok st)
        from rfl, hpp]
    dsimp only
    rw [if_neg (by simp [hrc])]

/-- Witness for C5 at concrete inputs: with `now = 100` and a 30-day
range, the order parsing 40 days old is excluded and raises the flag;
the order parsing 10 days old is appended. -/
theorem dateCutoff_spec_witness :
    processOrder cutoffTestEnv { dateRange := some 30 }
        (cutoffOf cutoffTestEnv { dateRange := some 30 })
        initRunState (datedOrder "d40") =
      .ok { initRunState with progressCalls := 1, processedOrders := 1,
                              reachedCutoff := true }
    ∧ processOrder cutoffTestEnv { dateRange := some 30 }
        (cutoffOf cutoffTestEnv { dateRange := some 30 })
        initRunState (datedOrder "d10") =
      .ok { initRunState with progressCalls := 1, processedOrders := 1,
                              orders := [datedOrder "d10"] } :=
  ⟨(dateCutoff_spec cutoffTestEnv { dateRange := some 30 } 30 rfl rfl rfl).1
     initRunState (datedOrder "d40") 60 (by decide) rfl (by decide),
   (dateCutoff_spec cutoffTestEnv { dateRange := some 30 } 30 rfl rfl rfl).2.1
     initRunState (datedOrder "d10") 90 rfl rfl (by decide)⟩

theorem progress_eq_bump (env : Env) (st : RunState)
    (hp : env.sendProgressFail = fun _ => none) :
    progress env st = .ok (bumpProgress st) :=
  progress_ok env st hp

theorem fallbackFetchLoop_ok (env : Env)
    (hp : env.sendProgressFail = fun _ => none) :
    ∀ (links : List OrderLink) (acc : List Order) (st : RunState),
      ∃ res, fallbackFetchLoop env links acc st = .ok res
        ∧ res.2.detailedItemsFetches = st.detailedItemsFetches := by
  intro links
  induction links with
  | nil => intro acc st; exact ⟨(acc, st), rfl, rfl⟩
  | cons info rest ih =>
    intro acc st
    have hcons : fallbackFetchLoop env (info :: rest) acc st =
        fallbackFetchLoop env rest
          (if strTruthy (fetchOrderDetails env.fetch info).orderId
           then acc ++ [fetchOrderDetails env.fetch info] else acc)
          { st with progressCalls := st.progressCalls + 1,
                    orderDetailsFetches := st.orderDetailsFetches + 1 } := by
      simp [fallbackFetchLoop, progress, hp]
    obtain ⟨res, h1, h2⟩ := ih
      (if strTruthy (fetchOrderDetails env.fetch info).orderId
       then acc ++ [fetchOrderDetails env.fetch info] else acc)
      { st with progressCalls := st.progressCalls + 1,
                orderDetailsFetches := st.orderDetailsFetches + 1 }
    exact ⟨res, by rw [hcons]; exact h1, h2⟩

theorem processOrdersLoop_master (env : Env) (opts : ExportOptions)
    (cutoff : Option Int)
    (hp : env.sendProgressFail = fun _ => none)
    (hf : opts.fetchItemPrices = false) :
    ∀ (orders : List Order) (st : RunState),
      ∃ st', processOrdersLoop env opts cutoff st orders = .ok st'
        ∧ st'.orderDetailsFetches = st.orderDetailsFetches
        ∧ st'.detailedItemsFetches = st.detailedItemsFetches
        ∧ ∃ tail, st'.orders = st.orders ++ tail ∧ ∀ o ∈ tail, o ∈ orders := by
  intro orders
  induction orders with
  | nil => intro st; exact ⟨st, rfl, rfl, rfl, [], by simp, by simp⟩
  | cons o rest ih =>
    intro st
    obtain ⟨st', h1, h2, h3, tail, ht, hmem⟩ :=
      ih { st with progressCalls := st.progressCalls + 1,
                   processedOrders := st.processedOrders + 1,
                   reachedCutoff := (dateCheckOf env cutoff st o).2,
                   orders := if typeFilterOf opts o (dateCheckOf env cutoff st o).1 = true
                             then st.orders ++ [o] else st.orders }
    refine ⟨st', ?_, h2, h3, ?_⟩
    · rw [show processOrdersLoop env opts cutoff st (o :: rest) =
            (match processOrder env opts cutoff st o with
             | .error m => .error m
             | .ok st => processOrdersLoop env opts cutoff st rest) from rfl,
          processOrder_noFetch_eq env opts cutoff st o hp hf]
      exact h1
    · have ht' : st'.orders =
          (if typeFilterOf opts o (dateCheckOf env cutoff st o).1 = true
           then st.orders ++ [o] else st.orders) ++ tail := ht
      by_cases hb : typeFilterOf opts o (dateCheckOf env cutoff st o).1 = true
      · rw [if_pos hb] at ht'
        refine ⟨o :: tail, by simpa [List.append_assoc] using ht', ?_⟩
        intro x hx
        rcases List.mem_cons.mp hx with rfl | hx2
        · exact List.mem_cons_self _ _
        · exact List.mem_cons_of_mem _ (hmem x hx2)
      · rw [if_neg hb] at ht'
        exact ⟨tail, ht', fun x hx => List.mem_cons_of_mem _ (hmem x hx)⟩

theorem processPage_empty_eq (env : Env) (opts : ExportOptions)
    (cutoff : Option Int) (st : RunState) (p : Page)
    (hp : env.sendProgressFail = fun _ => none)
    (hne : extractOrderDataFromListPage env.dateEnv p.listPage = []) :
    processPage env opts cutoff st p =
      (match fallbackFetchLoop env (getOrderIdsFromPage p.rawLinks) []
          (bumpProgress (bumpProgress st)) with
       | .error m => .error m
       | .ok res =>
         match (if res.1.length = 0 then progress env res.2 else .ok res.2) with
         | .error m => .error m
         | .ok st4 => processOrdersLoop env opts cutoff st4 res.1) := by
  cases hfb : fallbackFetchLoop env (getOrderIdsFromPage p.rawLinks) []
      (bumpProgress (bumpProgress st)) with
  | error m =>
    simp [processPage, progress_eq_bump env _ hp, hne, hfb]
  | ok res =>
    obtain ⟨pageOrders, st3⟩ := res
    simp [processPage, progress_eq_bump env _ hp, hne, hfb]

theorem processPage_master (env : Env) (opts : ExportOptions)
    (cutoff : Option Int) (st : RunState) (p : Page)
    (hp : env.sendProgressFail = fun _ => none)
    (hf : opts.fetchItemPrices = false) :
    ∃ st', processPage env opts cutoff st p = .ok st'
      ∧ st'.detailedItemsFetches = st.detailedItemsFetches
      ∧ (extractOrderDataFromListPage env.dateEnv p.listPage ≠ [] →
         st'.orderDetailsFetches = st.orderDetailsFetches
         ∧ ∃ tail, st'.orders = st.orders ++ tail
             ∧ ∀ o ∈ tail, o ∈ extractOrderDataFromListPage env.dateEnv p.listPage) := by
  by_cases hne : extractOrderDataFromListPage env.dateEnv p.listPage = []
  · obtain ⟨res, hfb, hfbdet⟩ := fallbackFetchLoop_ok env hp
      (getOrderIdsFromPage p.rawLinks) [] (bumpProgress (bumpProgress st))
    by_cases hres : res.1.length = 0
    · obtain ⟨st', hloop, hod, hdet2, tail, ht, hmem⟩ :=
        processOrdersLoop_master env opts cutoff hp hf res.1 (bumpProgress res.2)
      refine ⟨st', ?_, ?_, fun hcon => absurd hne hcon⟩
      · rw [processPage_empty_eq env opts cutoff st p hp hne, hfb]
        dsimp only
        rw [if_pos hres, progress_eq_bump env res.2 hp]
        exact hloop
      · exact (show st'.detailedItemsFetches = res.2.detailedItemsFetches from hdet2).trans
          hfbdet
    · obtain ⟨st', hloop, hod, hdet2, tail, ht, hmem⟩ :=
        processOrdersLoop_master env opts cutoff hp hf res.1 res.2
      refine ⟨st', ?_, ?_, fun hcon => absurd hne hcon⟩
      · rw [processPage_empty_eq env opts cutoff st p hp hne, hfb]
        dsimp only
        rw [if_neg hres]
        exact hloop
      · exact hdet2.trans hfbdet
  · have hlen : ¬ (extractOrderDataFromListPage env.dateEnv p.listPage).length = 0 := by
      simpa [List.length_eq_zero] using hne
    have heq : processPage env opts cutoff st p =
        processOrdersLoop env opts cutoff (bumpProgress st)
          (extractOrderDataFromListPage env.dateEnv p.listPage) := by
      simp [processPage, progress_eq_bump env st hp, hlen]
    obtain ⟨st', hloop, hod, hdet2, tail, ht, hmem⟩ :=
      processOrdersLoop_master env opts cutoff hp hf
        (extractOrderDataFromListPage env.dateEnv p.listPage) (bumpProgress st)
    refine ⟨st', by rw [heq]; exact hloop, hdet2, fun _ => ⟨hod, tail, ht, hmem⟩⟩

theorem runPages_cons (env : Env) (opts : ExportOptions) (cutoff : Option Int)
    (st : RunState) (p : Page) (rest : List Page) :
    runPages env opts cutoff st (p :: rest) =
      (match processPage env opts cutoff st p with
       | .error m => .error m
       | .ok st1 =>
         if opts.allPages = true ∧ st1.reachedCutoff = false
             ∧ p.hasNextPage = true ∧ rest.isEmpty = false then
           match progress env st1 with
           | .error m => .error m
           | .ok st2 => runPages env opts cutoff st2 rest
         else .ok st1) := rfl

theorem runPages_master (env : Env) (opts : ExportOptions) (cutoff : Option Int)
    (hp : env.sendProgressFail = fun _ => none)
    (hf : opts.fetchItemPrices = false) :
    ∀ (pages : List Page) (st : RunState),
      ∃ st', runPages env opts cutoff st pages = .ok st'
        ∧ st'.detailedItemsFetches = st.detailedItemsFetches
        ∧ ((∀ p ∈ pages, extractOrderDataFromListPage env.dateEnv p.listPage ≠ []) →
           st'.orderDetailsFetches = st.orderDetailsFetches
           ∧ ∃ tail, st'.orders = st.orders ++ tail
               ∧ ∀ o ∈ tail, ∃ p ∈ pages,
                   o ∈ extractOrderDataFromListPage env.dateEnv p.listPage) := by
  intro pages
  induction pages with
  | nil =>
    intro st
    exact ⟨st, rfl, rfl, fun _ => ⟨rfl, [], by simp, by simp⟩⟩
  | cons p rest ih =>
    intro st
    obtain ⟨st1, hpp, hdet1, hcond1⟩ := processPage_master env opts cutoff st p hp hf
    by_cases hguard : opts.allPages = true ∧ st1.reachedCutoff = false
        ∧ p.hasNextPage = true ∧ rest.isEmpty = false
    · obtain ⟨st', hrun, hdet2, hcond2⟩ := ih (bumpProgress st1)
      refine ⟨st', ?_, ?_, ?_⟩
      · rw [runPages_cons, hpp]
        dsimp only
        rw [if_pos hguard, progress_eq_bump env st1 hp]
        exact hrun
      · exact (show st'.detailedItemsFetches = st1.detailedItemsFetches from hdet2).trans hdet1
      · intro hall
        obtain ⟨hod1, tail1, ht1, hmem1⟩ := hcond1 (hall p (List.mem_cons_self _ _))
        obtain ⟨hod2, tail2, ht2, hmem2⟩ :=
          hcond2 (fun q hq => hall q (List.mem_cons_of_mem _ hq))
        refine ⟨?_, tail1 ++ tail2, ?_, ?_⟩
        · exact (show st'.orderDetailsFetches = st1.orderDetailsFetches from hod2).trans hod1
        · have ht2' : st'.orders = st1.orders ++ tail2 := ht2
          rw [ht2', ht1, List.append_assoc]
        · intro o ho
          rcases List.mem_append.mp ho with h | h
          · exact ⟨p, List.mem_cons_self _ _, hmem1 o h⟩
          · obtain ⟨q, hq, hoq⟩ := hmem2 o h
            exact ⟨q, List.mem_cons_of_mem _ hq, hoq⟩
    · refine ⟨st1, ?_, hdet1, ?_⟩
      · rw [runPages_cons, hpp]
        dsimp only
        rw [if_neg hguard]
      · intro hall
        obtain ⟨hod1, tail1, ht1, hmem1⟩ := hcond1 (hall p (List.mem_cons_self _ _))
        exact ⟨hod1, tail1, ht1, fun o ho => ⟨p, List.mem_cons_self _ _, hmem1 o ho⟩⟩

theorem extractContainerGo_price_empty :
    ∀ (images : List AltImage) (seen : List String),
      ∀ it ∈ extractContainerGo images seen, it.price = "" ∧ it.priceValue = 0 := by
  intro images
  induction images with
  | nil => intro seen it hit; simp [extractContainerGo] at hit
  | cons img rest ih =>
    intro seen it hit
    simp only [extractContainerGo] at hit
    split at hit
    · exact ih seen it hit
    · split at hit
      · exact ih seen it hit
      · split at hit
        · rcases List.mem_cons.mp hit with rfl | hmem
          · exact ⟨rfl, rfl⟩
          · exact ih _ it hmem
        · exact ih seen it hit

theorem collectPrimary_price_empty :
    ∀ (env : DateEnv) (cs : List ListContainer) (seen : List String),
      ∀ o ∈ collectPrimary env cs seen, ∀ it ∈ o.items,
        it.price = "" ∧ it.priceValue = 0 := by
  intro env cs
  induction cs with
  | nil => intro seen o ho; simp [collectPrimary] at ho
  | cons c rest ih =>
    intro seen o ho
    simp only [collectPrimary] at ho
    split at ho
    · exact ih seen o ho
    · split at ho
      · exact ih seen o ho
      · rcases List.mem_cons.mp ho with rfl | hmem
        · intro it hit
          exact extractContainerGo_price_empty c.images [] it hit
        · exact ih _ o hmem

theorem collectFallback_price_empty :
    ∀ (env : DateEnv) (ls : List ReturnLink) (seen : List String),
      ∀ o ∈ collectFallback env ls seen, ∀ it ∈ o.items,
        it.price = "" ∧ it.priceValue = 0 := by
  intro env ls
  induction ls with
  | nil => intro seen o ho; simp [collectFallback] at ho
  | cons l rest ih =>
    intro seen o ho
    simp only [collectFallback] at ho
    split at ho
    · exact ih seen o ho
    · split at ho
      · exact ih seen o ho
      · rcases List.mem_cons.mp ho with rfl | hmem
        · intro it hit
          exact extractContainerGo_price_empty l.container.images [] it hit
        · exact ih _ o hmem

theorem extractListPage_price_empty (env : DateEnv) (p : ListPage) :
    ∀ o ∈ extractOrderDataFromListPage env p, ∀ it ∈ o.items,
      it.price = "" ∧ it.priceValue = 0 := by
  intro o ho
  rw [show extractOrderDataFromListPage env p =
        (if (collectPrimary env p.containers []).length = 0
         then collectFallback env p.returnLinks []
         else collectPrimary env p.containers []) from rfl] at ho
  split at ho
  · exact collectFallback_price_empty env p.returnLinks [] o ho
  · exact collectPrimary_price_empty env p.containers [] o ho

/-- C9 amended: with `fetchItemPrices = false`, `fetchDetailedItems`
(the price-enrichment detail fetch) is never invoked; the per-order
`fetchOrderDetails` network round-trip can still occur, but only
through the empty-page fallback — when every page's list extraction is
non-empty no detail fetch of either kind happens, and every collected
item carries an empty price string and `priceValue = 0`. -/
theorem noPriceFetch_spec (env : Env) (opts : ExportOptions) (pages : List Page)
    (hp : env.sendProgressFail = fun _ => none)
    (hf : opts.fetchItemPrices = false) :
    (runAccum env opts pages).detailedItemsFetches = 0
    ∧ ((∀ p ∈ pages, extractOrderDataFromListPage env.dateEnv p.listPage ≠ []) →
       (runAccum env opts pages).orderDetailsFetches = 0
       ∧ ∀ o ∈ (runAccum env opts pages).orders, ∀ it ∈ o.items,
           it.price = "" ∧ it.priceValue = 0) := by
  obtain ⟨st', hrun, hdet, hcond⟩ :=
    runPages_master env opts (cutoffOf env opts) hp hf pages initRunState
  have hbody : exportOrdersBody env opts pages =
      .ok (bumpProgress st',
           generateCSV opts.includeItems (bumpProgress st').orders,
           ((bumpProgress st').orders.map (fun o => o.items.length)).sum) := by
    simp only [exportOrdersBody]
    rw [hrun]
    dsimp only
    rw [progress_eq_bump env st' hp]
  have haccum : runAccum env opts pages = bumpProgress st' := by
    simp only [runAccum]
    rw [hbody]
  rw [haccum]
  constructor
  · exact (show (bumpProgress st').detailedItemsFetches
        = st'.detailedItemsFetches from rfl).trans hdet
  · intro hall
    obtain ⟨hod, tail, ht, hmem⟩ := hcond hall
    constructor
    · exact (show (bumpProgress st').orderDetailsFetches
          = st'.orderDetailsFetches from rfl).trans hod
    · intro o ho it hit
      have ho' : o ∈ tail := by
        have ho2 : o ∈ st'.orders :=
          (show (bumpProgress st').orders = st'.orders from rfl) ▸ ho
        rw [ht] at ho2
        simpa [initRunState] using ho2
      obtain ⟨p, _, hop⟩ := hmem o ho'
      exact extractListPage_price_empty env.dateEnv p.listPage o hop it hit

/-- Witness for the amended C9: a one-page run whose list extraction
finds an order performs no detail fetch of either kind and yields only
price-less items. -/
theorem noPriceFetch_spec_witness :
    (runAccum baseEnv allDatesOptions [simplePage "7" false]).detailedItemsFetches = 0
    ∧ (runAccum baseEnv allDatesOptions [simplePage "7" false]).orderDetailsFetches = 0
    ∧ ∀ o ∈ (runAccum baseEnv allDatesOptions [simplePage "7" false]).orders,
        ∀ it ∈ o.items, it.price = "" ∧ it.priceValue = 0 :=
  ⟨(noPriceFetch_spec baseEnv allDatesOptions [simplePage "7" false] rfl rfl).1,
   ((noPriceFetch_spec baseEnv allDatesOptions [simplePage "7" false] rfl rfl).2
      (by decide)).1,
   ((noPriceFetch_spec baseEnv allDatesOptions [simplePage "7" false] rfl rfl).2
      (by decide)).2⟩

/-- C9 counterexample: a run with `fetchItemPrices = false` whose list
extraction finds nothing falls back to fetching each linked order
individually — the per-order Detail Fetcher runs once, and the fetched
order's items carry non-empty prices. -/
theorem detailFetcher_counterexample :
    (runAccum fallbackEnv allDatesOptions [fallbackPage]).orderDetailsFetches = 1
    ∧ ∃ o ∈ (runAccum fallbackEnv allDatesOptions [fallbackPage]).orders,
        ∃ it ∈ o.items, it.price ≠ "" ∧ it.priceValue ≠ 0 := by
  constructor
  · decide
  · decide

/-- Witness for C2 at the concrete input `a,"b`. -/
theorem escapeCSV_spec_witness :
    (needsEscape ("a,\"b".data) = true ↔
      (',' ∈ "a,\"b".data ∨ '"' ∈ "a,\"b".data ∨ '\n' ∈ "a,\"b".data))
    ∧ escapeCSVChars ("a,\"b".data) = quoteWrap ("a,\"b".data)
    ∧ unescapeField (escapeCSVChars ("a,\"b".data)) = "a,\"b".data :=
  ⟨(escapeCSV_spec _).1,
   (escapeCSV_spec _).2.1.mpr (by decide),
   (escapeCSV_spec _).2.2.2 (by decide)⟩

end WalmartExporter
